import Mathlib

/-!
go-http-server: request decoder, response encoder and dispatcher

A shallow embedding of `app/http.go` (and of the one call chain of
`app/server.go` that uses it) together with the properties of the wire format
that the specification states.

Conventions of the embedding

* A Go `string` and a Go `[]byte` are both a `Str`, a list of bytes.  The
  `nil` slice and the empty slice are not told apart (the program never does).
* A Go `map[string]string` is a `StrMap`: an association list with one entry
  per key, kept in order of first insertion.  The order is an artefact of the
  model; a `range` over the map may visit the entries in any order, so the
  encoder takes the order of the visit as an argument.
* A run-time panic (a slice bound out of range) is the result `none`.
* `fmt.Println` only writes a log line and is left out.
* The file system is an explicit state `FS` that `CreateResponse` reads and
  returns; `directoryArg`, a global of the program, is an argument.
* Library functions (`bytes.Index`, `strings.Split`, `strings.TrimRight`,
  `strconv.Itoa`, `filepath.Base`, `filepath.Join`, ...) are modelled from
  their documented behaviour on the arguments the program passes (non-empty
  ASCII separators and cut sets, Unix path separator).
-/

namespace HttpServer

/-! ## Bytes and strings -/

abbrev Byte := UInt8

abbrev Str := List Byte

/-- The bytes of an ASCII string literal of the source. -/
def ascii (s : String) : Str := s.toList.map (fun c => UInt8.ofNat c.toNat)

/-- Go slice expression `s[:hi]`; `none` is the out-of-range panic.  The upper
limit of a slice expression is the capacity; the length is used here, which
is never smaller a bound than the program meets (see `getHeaderBytes_isSome`). -/
def sliceTo (s : Str) (hi : Int) : Option Str :=
  if 0 ≤ hi ∧ hi ≤ (s.length : Int) then some (s.take hi.toNat) else none

/-- Go slice expression `s[lo:]`; `none` is the out-of-range panic. -/
def sliceFrom (s : Str) (lo : Int) : Option Str :=
  if 0 ≤ lo ∧ lo ≤ (s.length : Int) then some (s.drop lo.toNat) else none

/-! ## Library functions -/

/-- Least `i` such that `sep` is a prefix of `s[i:]`, if there is one. -/
def indexOf (sep : Str) : Str → Option Nat
  | [] => if sep = [] then some 0 else none
  | c :: cs => if sep.isPrefixOf (c :: cs) then some 0 else (indexOf sep cs).map (· + 1)

/-- Go `bytes.Index` / `strings.Index`: index of the first instance of `sep`
in `s`, or `-1`. -/
def bytes.Index (s sep : Str) : Int :=
  match indexOf sep s with
  | some i => (i : Int)
  | none => -1

/-- Go `strings.Contains`: `Index(s, substr) >= 0`. -/
def strings.Contains (s substr : Str) : Bool := decide (0 ≤ bytes.Index s substr)

/-- Go `strings.HasPrefix`. -/
def strings.HasPrefix (s pre : Str) : Bool := pre.isPrefixOf s

/-- Go `strings.TrimPrefix`: `s` without the leading `pre`, or `s` itself when
`s` does not start with `pre`. -/
def strings.TrimPrefix (s pre : Str) : Str :=
  if strings.HasPrefix s pre then s.drop pre.length else s

/-- Go `strings.TrimRight` for an ASCII cut set: all trailing bytes that occur
in `cutset` are removed. -/
def strings.TrimRight (s cutset : Str) : Str := s.rdropWhile (fun b => cutset.contains b)

/-- The loop of `strings.Split` (`genSplit`) for a non-empty separator: cut at
the first instance of `sep`, continue behind it.  Every round consumes at
least one byte, so `fuel = len(s)` rounds are always enough. -/
def strings.genSplit (sep : Str) : Nat → Str → List Str
  | 0, s => [s]
  | fuel + 1, s =>
    match indexOf sep s with
    | none => [s]
    | some m => s.take m :: strings.genSplit sep fuel (s.drop (m + sep.length))

/-- Go `strings.Split` for a non-empty separator. -/
def strings.Split (s sep : Str) : List Str := strings.genSplit sep s.length s

/-- Go `strconv.Itoa`: decimal text of an integer. -/
def strconv.Itoa (n : Int) : Str :=
  if n < 0 then 45 :: ascii (String.mk (Nat.toDigits 10 n.natAbs))
  else ascii (String.mk (Nat.toDigits 10 n.toNat))

/-! ## Maps -/

/-- Model of `map[string]string`. -/
abbrev StrMap := List (Str × Str)

/-- Go `m[k] = v`. -/
def StrMap.set : StrMap → Str → Str → StrMap
  | [], k, v => [(k, v)]
  | (k1, v1) :: t, k, v => if k1 = k then (k, v) :: t else (k1, v1) :: StrMap.set t k v

/-- Go `v, ok := m[k]` as an option. -/
def StrMap.get : StrMap → Str → Option Str
  | [], _ => none
  | (k1, v1) :: t, k => if k1 = k then some v1 else StrMap.get t k

/-! ## http.go -/

def lineTerminator : Str := ascii "\r\n"

def headerTerminator : Str := ascii "\r\n\r\n"

structure Request where
  Method : Str
  Path : Str
  Version : Str
  Headers : StrMap
  Body : Str
deriving DecidableEq, Repr

structure Response where
  Version : Str
  StatusCode : Int
  StatusText : Str
  Headers : StrMap
  Body : Str
deriving DecidableEq, Repr

def Response.SetStatusOK (r : Response) : Response :=
  { r with StatusCode := 200, StatusText := ascii "OK" }

def Response.SetStatusNotFound (r : Response) : Response :=
  { r with StatusCode := 404, StatusText := ascii "Not Found" }

def Response.SetStatusCreated (r : Response) : Response :=
  { r with StatusCode := 201, StatusText := ascii "Created" }

/-- The method `Encode`.  `order` is the sequence in which `range r.Headers`
visits the entries of the map: some permutation of `r.Headers`. -/
def Response.Encode (r : Response) (order : List (Str × Str)) : Str :=
  let builder : Str := []
  let builder := builder ++
    (r.Version ++ ascii " " ++ strconv.Itoa r.StatusCode ++ ascii " " ++ r.StatusText
      ++ lineTerminator)
  let builder := order.foldl
    (fun b kv => b ++ (kv.1 ++ ascii ": " ++ kv.2 ++ lineTerminator)) builder
  let builder := builder ++ lineTerminator
  let builder := builder ++ r.Body
  builder

def Response.SetStatus (r : Response) (status : Int) : Response :=
  { r with StatusCode := status }

/-- Returns method, path, version and the error, if any. -/
def parseFirstLine (line : Str) : Str × Str × Str × Option Str :=
  let split := strings.Split line (ascii " ")
  match split with
  | [a, b, c] => (a, b, c, none)
  | _ => ([], [], [], some (ascii "firstline malformed"))

def parseHeader (line : Str) : Str × Str :=
  let keyValue := strings.Split line (ascii ": ")
  match keyValue with
  | [k, v] => (k, v)
  | _ => ([], [])

/-- Returns the header bytes and the index where the body starts. -/
def getHeaderBytes (data : Str) : Option (Str × Int) :=
  let index := bytes.Index data headerTerminator
  if index = -1 then some ([], -1)
  else
    let index := index + 4
    (sliceTo data index).map (fun headerBytes => (headerBytes, index))

/-- One round of the loop over the lines in `ParseRequest`. -/
def parseLine (request : Request) (il : Nat × Str) : Request :=
  if il.1 = 0 then
    let r := parseFirstLine il.2
    { request with Method := r.1, Path := r.2.1, Version := r.2.2.1 }
  else
    let kv := parseHeader il.2
    { request with Headers := request.Headers.set kv.1 kv.2 }

def ParseRequest (data : Str) : Option Request :=
  let request : Request := { Method := [], Path := [], Version := [], Headers := [], Body := [] }
  match getHeaderBytes data with
  | none => none
  | some (headerBytes, offset) =>
    let headerString := headerBytes
    let headerString := strings.TrimRight headerString headerTerminator
    let lines := strings.Split headerString lineTerminator
    let request := lines.enum.foldl parseLine request
    match sliceFrom data offset with
    | none => none
    | some body => some { request with Body := body }

/-! ## File system and paths -/

def Separator : Byte := 47

/-- Go `filepath.Base` (Unix): the last element of the path. -/
def filepath.Base (path : Str) : Str :=
  if path = [] then ascii "."
  else
    let path := path.rdropWhile (fun b => b == Separator)
    let path := path.rtakeWhile (fun b => b != Separator)
    if path = [] then [Separator] else path

/-- One element of a path met by `filepath.Clean`; `stack` holds the elements
kept so far, last one first. -/
def filepath.cleanStep (rooted : Bool) (stack : List Str) (elem : Str) : List Str :=
  if elem = [] ∨ elem = ascii "." then stack
  else if elem = ascii ".." then
    match stack with
    | top :: below => if top = ascii ".." then elem :: stack else below
    | [] => if rooted then [] else [elem]
  else elem :: stack

/-- Go `filepath.Clean` (Unix): the shortest path name equivalent to `path` by
purely lexical processing. -/
def filepath.Clean (path : Str) : Str :=
  if path = [] then ascii "."
  else
    let rooted := path.head? == some Separator
    let stack := (strings.Split path [Separator]).foldl (filepath.cleanStep rooted) []
    let out := (if rooted then [Separator] else []) ++ [Separator].intercalate stack.reverse
    if out = [] then ascii "." else out

/-- Go `filepath.Join` of two elements (Unix). -/
def filepath.Join (a b : Str) : Str :=
  if a ≠ [] then filepath.Clean (a ++ [Separator] ++ b)
  else if b ≠ [] then filepath.Clean b
  else []

inductive Node where
  | file (content : Str)
  | dir
deriving DecidableEq, Repr

/-- The file system as the program meets it: what exists under each path name
handed to the operating system, and the path names at which creating a file is
refused (no permission, no parent directory). -/
structure FS where
  nodes : List (Str × Node)
  denied : List Str
deriving DecidableEq, Repr

def FS.lookup (fs : FS) (p : Str) : Option Node := fs.nodes.lookup p

/-- Result of `os.Stat` being without error. -/
def fileExists (fs : FS) (filePath : Str) : Bool := (fs.lookup filePath).isSome

/-- Result of `os.ReadFile`; `none` is the error (and the content `nil`). -/
def getFileContent (fs : FS) (filePath : Str) : Option Str :=
  match fs.lookup filePath with
  | some (Node.file content) => some content
  | _ => none

/-- Whether `os.Create` succeeds. -/
def FS.canCreate (fs : FS) (p : Str) : Bool :=
  !(fs.denied.contains p) && !(fs.lookup p == some Node.dir)

/-- Result of `os.Create` followed by `Write`: the new state and whether an
error is returned. -/
def writeToFile (fs : FS) (filePath data : Str) : FS × Bool :=
  if fs.canCreate filePath then
    ({ fs with nodes := (filePath, Node.file data) :: fs.nodes.filter (fun e => e.1 ≠ filePath) },
      false)
  else (fs, true)

def CreateResponse (directoryArg : Str) (fs : FS) (request : Request) : Response × FS :=
  let response : Response :=
    { Version := request.Version, StatusCode := 0, StatusText := [], Headers := [], Body := [] }
  if request.Path = ascii "/" then
    (response.SetStatusOK, fs)
  else if strings.Contains request.Path (ascii "/echo/") then
    let response := response.SetStatusOK
    let response :=
      { response with Headers := response.Headers.set (ascii "Content-Type") (ascii "text/plain") }
    let content := strings.TrimPrefix request.Path (ascii "/echo/")
    let response :=
      { response with
        Headers := response.Headers.set (ascii "Content-Length") (strconv.Itoa content.length) }
    ({ response with Body := content }, fs)
  else if request.Path = ascii "/user-agent" then
    let response := response.SetStatusOK
    let response :=
      { response with Headers := response.Headers.set (ascii "Content-Type") (ascii "text/plain") }
    let content := (request.Headers.get (ascii "User-Agent")).getD []
    let response :=
      { response with
        Headers := response.Headers.set (ascii "Content-Length") (strconv.Itoa content.length) }
    ({ response with Body := content }, fs)
  else if request.Method = ascii "GET" ∧ strings.HasPrefix request.Path (ascii "/files/") then
    let filename := filepath.Base request.Path
    let filePath := filepath.Join directoryArg filename
    if fileExists fs filePath then
      let response := response.SetStatusOK
      let response :=
        { response with
          Headers := response.Headers.set (ascii "Content-Type") (ascii "application/octet-stream") }
      let content := (getFileContent fs filePath).getD []
      let response :=
        { response with
          Headers := response.Headers.set (ascii "Content-Length") (strconv.Itoa content.length) }
      ({ response with Body := content }, fs)
    else
      (response.SetStatusNotFound, fs)
  else if request.Method = ascii "POST" ∧ strings.HasPrefix request.Path (ascii "/files/") then
    let filename := filepath.Base request.Path
    let filePath := filepath.Join directoryArg filename
    let fs := (writeToFile fs filePath request.Body).1
    (response.SetStatusCreated, fs)
  else
    (response.SetStatusNotFound, fs)

/-- The exchange of `handleConnection` on the bytes read from the connection:
decode, dispatch, encode.  The result is the bytes written and the new state
of the file system, `none` when the handler panics; `order` gives the order
in which the encoder visits the header map of a response. -/
def handleConnection (directoryArg : Str) (fs : FS) (order : Response → List (Str × Str))
    (data : Str) : Option (Str × FS) :=
  match ParseRequest data with
  | none => none
  | some request =>
    let res := CreateResponse directoryArg fs request
    some (res.1.Encode (order res.1), res.2)

/-! ## Definitions used in the statements -/

/-- The map that the loop builds from the header lines (all lines but the
first), in order. -/
def headersOf (lines : List Str) : StrMap :=
  lines.foldl (fun h l => h.set (parseHeader l).1 (parseHeader l).2) []

/-- The request that the loop builds from the lines, with the body given. -/
def decodeLines (lines : List Str) (body : Str) : Request :=
  match lines with
  | [] => { Method := [], Path := [], Version := [], Headers := [], Body := body }
  | l0 :: rest =>
    { Method := (parseFirstLine l0).1, Path := (parseFirstLine l0).2.1,
      Version := (parseFirstLine l0).2.2.1, Headers := headersOf rest, Body := body }

/-- The line that the encoder writes for one entry of the header map. -/
def headerLine (kv : Str × Str) : Str := kv.1 ++ [58, 32] ++ kv.2 ++ [13, 10]

/-- The status line that the encoder writes, with its line end. -/
def statusLine (r : Response) : Str :=
  r.Version ++ [32] ++ strconv.Itoa r.StatusCode ++ [32] ++ r.StatusText ++ [13, 10]

/-- A response with two headers, for the evaluation of the encoder. -/
def twoHeaderResponse : Response :=
  { Version := ascii "HTTP/1.1", StatusCode := 200, StatusText := ascii "OK",
    Headers := [(ascii "A", ascii "1"), (ascii "B", ascii "2")], Body := ascii "hi" }

/-- The part of `s` behind the first instance of `sep` (all of `s` when there
is no instance): the body that the specification gives to the echo route. -/
def afterFirstInstance (s sep : Str) : Str :=
  match indexOf sep s with
  | some i => s.drop (i + sep.length)
  | none => s

/-- A request with the given path and nothing else. -/
def requestWithPath (path : Str) : Request :=
  { Method := ascii "GET", Path := path, Version := ascii "HTTP/1.1", Headers := [], Body := [] }

/-- The lines behind the first one that the decoder sees when the header
section is a first line followed by `x`, where `x` is empty or starts with a
line end. -/
def restLines (x : Str) : List Str :=
  if strings.TrimRight x headerTerminator = [] then []
  else strings.Split (strings.TrimRight (x.drop 2) headerTerminator) lineTerminator

/-- The header section made of a first line and further lines: the lines with
a line end between them. -/
def sectionOf (l0 : Str) : List Str → Str
  | [] => l0
  | h :: hs => l0 ++ lineTerminator ++ sectionOf h hs

/-- A request for `/user-agent` whose only header has the key in lower case. -/
def lowerCaseAgentRequest : Request :=
  { Method := ascii "GET", Path := ascii "/user-agent", Version := ascii "HTTP/1.1",
    Headers := [(ascii "user-agent", ascii "test-client")], Body := [] }

/-- The file system without any entry. -/
def emptyFS : FS := { nodes := [], denied := [] }

/-- A request with the given method and path, version `HTTP/1.1`, no header
and the given body. -/
def requestOf (method path body : Str) : Request :=
  { Method := method, Path := path, Version := ascii "HTTP/1.1", Headers := [], Body := body }

/-- The response with a body: status 200 `OK`, the given content type, the
length of the content and the content. -/
def okWithContent (version contentType content : Str) : Response :=
  { Version := version, StatusCode := 200, StatusText := ascii "OK",
    Headers := [(ascii "Content-Type", contentType),
      (ascii "Content-Length", strconv.Itoa content.length)],
    Body := content }

/-- The response without header and body. -/
def bare (version : Str) (code : Int) (text : Str) : Response :=
  { Version := version, StatusCode := code, StatusText := text, Headers := [], Body := [] }

/-- The path name that the file routes hand to the operating system. -/
def addressed (directoryArg path : Str) : Str :=
  filepath.Join directoryArg (filepath.Base path)

/-- A file system with a file `x` in the directory `/tmp/data`. -/
def oneFileFS : FS :=
  { nodes := [(ascii "/tmp/data/x", Node.file (ascii "old"))], denied := [] }

/-- A response whose body holds the terminator and other line-end bytes. -/
def terminatorBodyResponse : Response :=
  { Version := ascii "HTTP/1.1", StatusCode := 200, StatusText := ascii "OK",
    Headers := [(ascii "Content-Type", ascii "text/plain"), (ascii "Content-Length", ascii "9")],
    Body := ascii "\r\n\r\na\r\n\r\n" }

/-- A file system with the directories `/tmp` and `/tmp/data` and a file in
the latter. -/
def dataDirFS : FS :=
  { nodes := [(ascii "/tmp", Node.dir), (ascii "/tmp/data", Node.dir),
      (ascii "/tmp/data/b.txt", Node.file (ascii "content"))],
    denied := [] }

/-- The path name of the entry `name` of the directory with the clean path
name `dir`. -/
def childOf (dir name : Str) : Str :=
  if dir = ascii "." then name
  else if dir = [Separator] then Separator :: name
  else dir ++ [Separator] ++ name

/-- What `filepath.Clean` keeps on its stack: elements that are not empty, not
`.` and hold no separator. -/
def cleanElement (e : Str) : Prop := e ≠ [] ∧ e ≠ ascii "." ∧ (47 : Byte) ∉ e

/-! ## Constants -/

theorem lineTerminator_eq : lineTerminator = [13, 10] := by decide

theorem headerTerminator_eq : headerTerminator = [13, 10, 13, 10] := by decide

theorem ascii_space : ascii " " = [32] := by decide

theorem ascii_colon_space : ascii ": " = [58, 32] := by decide

/-! ## First instance of a separator -/

theorem indexOf_nil_sep (s : Str) : indexOf [] s = some 0 := by
  cases s <;> simp [indexOf]

theorem indexOf_cons (sep : Str) (c : Byte) (cs : Str) :
    indexOf sep (c :: cs) =
      if sep.isPrefixOf (c :: cs) then some 0 else (indexOf sep cs).map (· + 1) := rfl

/-- What `indexOf` returns: the position of an instance of `sep` with no
instance starting before it. -/
theorem indexOf_eq_some_iff (sep s : Str) (i : Nat) :
    indexOf sep s = some i ↔
      (sep <+: s.drop i ∧ i ≤ s.length ∧ ∀ j, j < i → ¬ sep <+: s.drop j) := by
  induction s generalizing i with
  | nil =>
    by_cases hs : sep = []
    · subst hs
      simp only [indexOf, if_true, Option.some.injEq, List.drop_nil, List.nil_prefix,
        List.length_nil, Nat.le_zero_eq, not_true_eq_false, imp_false, not_lt, true_and]
      constructor
      · intro h; subst h; simp
      · intro h; exact h.1.symm
    · simp [indexOf, hs]
  | cons c cs ih =>
    rw [indexOf_cons]
    by_cases hp : sep.isPrefixOf (c :: cs) = true
    · rw [if_pos hp]
      have hp2 : sep <+: c :: cs := List.isPrefixOf_iff_prefix.mp hp
      constructor
      · intro h
        have h0 : i = 0 := by simpa using h.symm
        subst h0
        exact ⟨by simpa using hp2, Nat.zero_le _, fun j hj => absurd hj (Nat.not_lt_zero j)⟩
      · rintro ⟨_, _, h3⟩
        rcases Nat.eq_zero_or_pos i with h0 | h0
        · rw [h0]
        · exact absurd (by simpa using hp2) (h3 0 h0)
    · rw [if_neg hp]
      have hp2 : ¬ sep <+: c :: cs := fun h => hp (List.isPrefixOf_iff_prefix.mpr h)
      cases i with
      | zero =>
        constructor
        · intro h
          cases hx : indexOf sep cs with
          | none => rw [hx] at h; simp at h
          | some k => rw [hx] at h; simp at h
        · rintro ⟨h1, _, _⟩
          exact absurd (by simpa using h1) hp2
      | succ k =>
        have key : (indexOf sep cs).map (· + 1) = some (k + 1) ↔ indexOf sep cs = some k := by
          cases hx : indexOf sep cs with
          | none => simp
          | some k2 => simp
        rw [key, ih k]
        constructor
        · rintro ⟨h1, h2, h3⟩
          refine ⟨by simpa using h1, by simpa using h2, ?_⟩
          intro j hj
          cases j with
          | zero => simpa using hp2
          | succ j2 => simpa using h3 j2 (by omega)
        · rintro ⟨h1, h2, h3⟩
          refine ⟨by simpa using h1, by simpa using h2, ?_⟩
          intro j hj
          simpa using h3 (j + 1) (by omega)

theorem indexOf_eq_none_iff (sep s : Str) :
    indexOf sep s = none ↔ ∀ j, ¬ sep <+: s.drop j := by
  induction s with
  | nil =>
    by_cases hs : sep = []
    · subst hs; simp [indexOf]
    · simp [indexOf, hs]
  | cons c cs ih =>
    rw [indexOf_cons]
    by_cases hp : sep.isPrefixOf (c :: cs) = true
    · rw [if_pos hp]
      have hp2 : sep <+: c :: cs := List.isPrefixOf_iff_prefix.mp hp
      simp only [reduceCtorEq, false_iff, not_forall, not_not]
      exact ⟨0, by simpa using hp2⟩
    · rw [if_neg hp]
      have hp2 : ¬ sep <+: c :: cs := fun h => hp (List.isPrefixOf_iff_prefix.mpr h)
      rw [Option.map_eq_none', ih]
      constructor
      · intro h j
        cases j with
        | zero => simpa using hp2
        | succ j2 => simpa using h j2
      · intro h j
        simpa using h (j + 1)

theorem indexOf_bound {sep s : Str} {i : Nat} (h : indexOf sep s = some i) :
    i + sep.length ≤ s.length := by
  obtain ⟨h1, h2, _⟩ := (indexOf_eq_some_iff sep s i).mp h
  have := h1.length_le
  simp only [List.length_drop] at this
  omega

theorem indexOf_split {sep s : Str} {i : Nat} (h : indexOf sep s = some i) :
    s = s.take i ++ sep ++ s.drop (i + sep.length) := by
  obtain ⟨h1, _, _⟩ := (indexOf_eq_some_iff sep s i).mp h
  obtain ⟨t, ht⟩ := h1
  have hd : s.drop (i + sep.length) = t := by
    rw [← List.drop_drop, ← ht]; simp
  rw [hd, List.append_assoc, ht, List.take_append_drop]

theorem Index_eq_neg_one_iff (s sep : Str) : bytes.Index s sep = -1 ↔ indexOf sep s = none := by
  unfold bytes.Index
  cases h : indexOf sep s with
  | none => simp
  | some i => simp

theorem Index_of_some {s sep : Str} {i : Nat} (h : indexOf sep s = some i) :
    bytes.Index s sep = (i : Int) := by
  unfold bytes.Index; rw [h]

theorem Contains_eq_false_iff (s sep : Str) :
    strings.Contains s sep = false ↔ indexOf sep s = none := by
  unfold strings.Contains bytes.Index
  cases h : indexOf sep s with
  | none => simp
  | some i => simp

theorem Contains_eq_true_iff (s sep : Str) :
    strings.Contains s sep = true ↔ ∃ i, indexOf sep s = some i := by
  unfold strings.Contains bytes.Index
  cases h : indexOf sep s with
  | none => simp
  | some i => simp

/-! ## Separators that cannot start inside what precedes them -/

theorem indexOf_two_none_cons {x y c : Byte} {m : Str} (h : indexOf [x, y] (c :: m) = none) :
    indexOf [x, y] m = none ∧ ¬ (c = x ∧ m.head? = some y) := by
  rw [indexOf_cons] at h
  by_cases hp : List.isPrefixOf [x, y] (c :: m) = true
  · rw [if_pos hp] at h; simp at h
  · rw [if_neg hp] at h
    refine ⟨by simpa using h, ?_⟩
    rintro ⟨h1, h2⟩
    apply hp
    cases m with
    | nil => simp at h2
    | cons d m2 =>
      simp only [List.head?_cons, Option.some.injEq] at h2
      subst h1 h2
      simp [List.isPrefixOf]

/-- A pattern that starts with the two bytes `x y` has no instance starting
inside `m` when `m` holds no `x y` and no `x y` lies across the end of `m`. -/
theorem indexOf_append_free (x y : Byte) (p m rest : Str) (hm : indexOf [x, y] m = none)
    (hr : m.getLast? ≠ some x ∨ rest.head? ≠ some y) :
    indexOf (x :: y :: p) (m ++ rest) = (indexOf (x :: y :: p) rest).map (· + m.length) := by
  induction m with
  | nil => simp
  | cons c m2 ih =>
    obtain ⟨h1, h2⟩ := indexOf_two_none_cons hm
    have hnp : List.isPrefixOf (x :: y :: p) (c :: (m2 ++ rest)) = false := by
      cases m2 with
      | nil =>
        cases rest with
        | nil => simp [List.isPrefixOf]
        | cons r rs =>
          simp only [List.nil_append, List.isPrefixOf, Bool.and_eq_false_imp, beq_iff_eq]
          intro h3 h4
          rcases hr with hr | hr
          · exact absurd (by simp [h3]) hr
          · exact absurd (by simp [h4]) hr
      | cons d m3 =>
        simp only [List.cons_append, List.isPrefixOf, Bool.and_eq_false_imp, beq_iff_eq]
        intro h3 h4
        exact absurd ⟨h3.symm, by simp [h4]⟩ h2
    have hr2 : m2.getLast? ≠ some x ∨ rest.head? ≠ some y := by
      cases m2 with
      | nil => left; simp
      | cons d m3 => simpa [List.getLast?_cons_cons] using hr
    rw [List.cons_append, indexOf_cons, hnp, ih h1 hr2]
    cases indexOf (x :: y :: p) rest with
    | none => simp
    | some k => simp; omega

theorem indexOf_one_none_iff (x : Byte) (m : Str) : indexOf [x] m = none ↔ x ∉ m := by
  induction m with
  | nil => simp [indexOf]
  | cons c m2 ih =>
    rw [indexOf_cons]
    by_cases hc : x = c
    · subst hc; simp [List.isPrefixOf]
    · have : List.isPrefixOf [x] (c :: m2) = false := by simp [List.isPrefixOf, hc]
      rw [this]
      simp only [Bool.false_eq_true, if_false, Option.map_eq_none', ih, List.mem_cons, hc,
        false_or]

/-- A one-byte separator. -/
theorem indexOf_append_free_one (x : Byte) (m rest : Str) (hm : x ∉ m) :
    indexOf [x] (m ++ rest) = (indexOf [x] rest).map (· + m.length) := by
  induction m with
  | nil => simp
  | cons c m2 ih =>
    have hc : x ≠ c := fun h => hm (by simp [h])
    have h2 : x ∉ m2 := fun h => hm (by simp [h])
    have : List.isPrefixOf [x] (c :: (m2 ++ rest)) = false := by simp [List.isPrefixOf, hc]
    rw [List.cons_append, indexOf_cons, this, ih h2]
    cases indexOf [x] rest with
    | none => simp
    | some k => simp; omega

theorem indexOf_self_append (sep rest : Str) : indexOf sep (sep ++ rest) = some 0 := by
  rw [indexOf_eq_some_iff]
  exact ⟨by simp, Nat.zero_le _, fun j hj => absurd hj (Nat.not_lt_zero j)⟩

/-! ## `strings.Split` -/

theorem genSplit_fuel (sep : Str) (hsep : sep ≠ []) (f1 f2 : Nat) (s : Str)
    (h1 : s.length ≤ f1) (h2 : s.length ≤ f2) :
    strings.genSplit sep f1 s = strings.genSplit sep f2 s := by
  induction f1 generalizing f2 s with
  | zero =>
    have hs : s = [] := List.length_eq_zero.mp (Nat.le_zero.mp h1)
    subst hs
    cases f2 with
    | zero => rfl
    | succ k => simp [strings.genSplit, indexOf, hsep]
  | succ k ih =>
    cases f2 with
    | zero =>
      have hs : s = [] := List.length_eq_zero.mp (Nat.le_zero.mp h2)
      subst hs
      simp [strings.genSplit, indexOf, hsep]
    | succ k2 =>
      simp only [strings.genSplit]
      cases hx : indexOf sep s with
      | none => rfl
      | some m =>
        have hb := indexOf_bound hx
        have hpos : 0 < sep.length := List.length_pos.mpr hsep
        simp only
        rw [ih k2 (s.drop (m + sep.length)) (by simp; omega) (by simp; omega)]

/-- The defining equation of `strings.Split` for a non-empty separator. -/
theorem Split_eq (s sep : Str) (hsep : sep ≠ []) :
    strings.Split s sep =
      match indexOf sep s with
      | none => [s]
      | some m => s.take m :: strings.Split (s.drop (m + sep.length)) sep := by
  unfold strings.Split
  cases hl : s.length with
  | zero =>
    have hs : s = [] := List.length_eq_zero.mp hl
    subst hs
    simp [strings.genSplit, indexOf, hsep]
  | succ n =>
    simp only [strings.genSplit]
    cases hx : indexOf sep s with
    | none => rfl
    | some m =>
      have hb := indexOf_bound hx
      have hpos : 0 < sep.length := List.length_pos.mpr hsep
      simp only
      rw [genSplit_fuel sep hsep n (s.drop (m + sep.length)).length _ (by simp; omega) le_rfl]

theorem Split_of_none (s sep : Str) (h : indexOf sep s = none) : strings.Split s sep = [s] := by
  unfold strings.Split
  cases s.length with
  | zero => rfl
  | succ n => simp [strings.genSplit, h]

theorem Split_append_two (x y : Byte) (hxy : x ≠ y) (a b : Str) (ha : indexOf [x, y] a = none) :
    strings.Split (a ++ [x, y] ++ b) [x, y] = a :: strings.Split b [x, y] := by
  have hi : indexOf [x, y] (a ++ [x, y] ++ b) = some a.length := by
    rw [List.append_assoc,
      indexOf_append_free x y [] a ([x, y] ++ b) ha (Or.inr (by simp [hxy])),
      indexOf_self_append]
    simp
  rw [Split_eq _ _ (by simp), hi]
  simp

theorem Split_append_one (x : Byte) (a b : Str) (ha : x ∉ a) :
    strings.Split (a ++ [x] ++ b) [x] = a :: strings.Split b [x] := by
  have hi : indexOf [x] (a ++ [x] ++ b) = some a.length := by
    rw [List.append_assoc, indexOf_append_free_one x a ([x] ++ b) ha, indexOf_self_append]
    simp
  rw [Split_eq _ _ (by simp), hi]
  simp

theorem Split_ne_nil (s sep : Str) : strings.Split s sep ≠ [] := by
  unfold strings.Split
  cases s.length with
  | zero => simp [strings.genSplit]
  | succ n =>
    simp only [strings.genSplit]
    cases indexOf sep s <;> simp

/-- Splitting on one byte gives one piece more than there are instances of
the byte. -/
theorem Split_one_length (x : Byte) (s : Str) :
    (strings.Split s [x]).length = s.count x + 1 := by
  generalize hn : s.length = n
  induction n using Nat.strong_induction_on generalizing s with
  | _ n ih =>
    subst hn
    rw [Split_eq _ _ (by simp)]
    cases hx : indexOf [x] s with
    | none =>
      have : x ∉ s := (indexOf_one_none_iff x s).mp hx
      simp [List.count_eq_zero_of_not_mem this]
    | some m =>
      have hb := indexOf_bound hx
      have hsplit := indexOf_split hx
      obtain ⟨_, _, hfirst⟩ := (indexOf_eq_some_iff [x] s m).mp hx
      have hnot : x ∉ s.take m := by
        intro hmem
        obtain ⟨j, hj, hjx⟩ := List.getElem_of_mem hmem
        simp only [List.length_take] at hj
        have hj2 : j < m := by omega
        apply hfirst j hj2
        rw [List.getElem_take] at hjx
        have : s.drop j = s[j] :: s.drop (j + 1) := by
          rw [List.drop_eq_getElem_cons]
        rw [this, hjx]
        simp
      have hrec := ih (s.drop (m + [x].length)).length (by simp at hb ⊢; omega) _ rfl
      have hcount : s.count x = (s.drop (m + [x].length)).count x + 1 := by
        conv_lhs => rw [hsplit]
        simp [List.count_append, List.count_eq_zero_of_not_mem hnot]
      simp only [List.length_cons, hcount]
      exact congrArg (· + 1) hrec

/-! ## `strings.TrimRight` -/

theorem TrimRight_append (a b c : Str) :
    strings.TrimRight (a ++ b) c =
      if strings.TrimRight b c = [] then strings.TrimRight a c else a ++ strings.TrimRight b c := by
  unfold strings.TrimRight
  induction b using List.reverseRecOn with
  | nil => simp
  | append_singleton b2 x ih =>
    rw [← List.append_assoc, List.rdropWhile_concat, List.rdropWhile_concat]
    by_cases hx : c.contains x = true
    · simp only [hx, if_true]; exact ih
    · simp only [hx, Bool.false_eq_true, if_false]
      rw [if_neg (by simp)]
      simp

theorem TrimRight_count (x : Byte) (s c : Str) (hx : x ∉ c) :
    (strings.TrimRight s c).count x = s.count x := by
  unfold strings.TrimRight
  induction s using List.reverseRecOn with
  | nil => simp
  | append_singleton s2 y ih =>
    rw [List.rdropWhile_concat]
    by_cases hy : c.contains y = true
    · have hne : y ≠ x := by
        intro h; subst h
        exact hx (by simpa using hy)
      simp only [hy, if_true, ih, List.count_append, List.count_singleton, beq_iff_eq, hne,
        if_false, Nat.add_zero]
    · simp only [hy, Bool.false_eq_true, if_false]

theorem TrimRight_headerTerminator :
    strings.TrimRight headerTerminator headerTerminator = [] := by decide

theorem TrimRight_lineTerminator :
    strings.TrimRight lineTerminator headerTerminator = [] := by decide

/-- The terminator at the end of the header bytes is always trimmed away. -/
theorem TrimRight_append_terminator (a : Str) :
    strings.TrimRight (a ++ headerTerminator) headerTerminator =
      strings.TrimRight a headerTerminator := by
  rw [TrimRight_append, TrimRight_headerTerminator, if_pos rfl]

/-- Trimming keeps a string free of a separator. -/
theorem TrimRight_free (sep s c : Str) (h : indexOf sep s = none) :
    indexOf sep (strings.TrimRight s c) = none := by
  rw [indexOf_eq_none_iff] at h ⊢
  intro j hj
  obtain ⟨t, ht⟩ : strings.TrimRight s c <+: s := List.rdropWhile_prefix _ _
  apply h j
  rw [← ht]
  by_cases hjl : j ≤ (strings.TrimRight s c).length
  · rw [List.drop_append_of_le_length hjl]
    exact hj.trans (List.prefix_append _ _)
  · have hnil : List.drop j (strings.TrimRight s c) = [] :=
      List.drop_eq_nil_of_le (by omega)
    rw [hnil] at hj
    have : sep = [] := List.prefix_nil.mp hj
    subst this
    exact List.nil_prefix

/-! ## The loop of `ParseRequest` -/

theorem foldl_parseLine_enumFrom (rest : List Str) (n : Nat) (hn : n ≠ 0) (r : Request) :
    (List.enumFrom n rest).foldl parseLine r =
      { r with Headers :=
          rest.foldl (fun h l => h.set (parseHeader l).1 (parseHeader l).2) r.Headers } := by
  induction rest generalizing n r with
  | nil => rfl
  | cons l ls ih =>
    rw [List.enumFrom_cons, List.foldl_cons, ih (n + 1) (by omega)]
    simp [parseLine, hn]

theorem foldl_parseLine_enum (lines : List Str) (body : Str) :
    { lines.enum.foldl parseLine
        { Method := [], Path := [], Version := [], Headers := [], Body := [] }
      with Body := body } = decodeLines lines body := by
  cases lines with
  | nil => rfl
  | cons l0 rest =>
    rw [List.enum_cons, List.foldl_cons, foldl_parseLine_enumFrom rest 1 (by omega)]
    simp [parseLine, decodeLines, headersOf]

/-- With the terminator first found at `i`, the header bytes are `data[:i+4]`
and the offset is `i+4`. -/
theorem getHeaderBytes_of_index {data : Str} {i : Nat}
    (h : indexOf headerTerminator data = some i) :
    getHeaderBytes data = some (data.take (i + 4), ((i + 4 : Nat) : Int)) := by
  have hb := indexOf_bound h
  rw [headerTerminator_eq] at hb
  simp only [List.length_cons, List.length_nil] at hb
  unfold getHeaderBytes
  simp only [Index_of_some h]
  rw [if_neg (by omega)]
  unfold sliceTo
  rw [if_pos (by constructor <;> omega)]
  simp only [Option.map_some', Option.some.injEq, Prod.mk.injEq]
  constructor
  · congr 1
  · push_cast; rfl

theorem getHeaderBytes_of_none {data : Str} (h : indexOf headerTerminator data = none) :
    getHeaderBytes data = some ([], -1) := by
  unfold getHeaderBytes
  simp only [(Index_eq_neg_one_iff data headerTerminator).mpr h, if_true]

/-- The slice `data[:index]` in `getHeaderBytes` is never out of range. -/
theorem getHeaderBytes_isSome (data : Str) : (getHeaderBytes data).isSome = true := by
  cases h : indexOf headerTerminator data with
  | none => rw [getHeaderBytes_of_none h]; rfl
  | some i => rw [getHeaderBytes_of_index h]; rfl

theorem take_terminator {data : Str} {i : Nat} (h : indexOf headerTerminator data = some i) :
    data.take (i + 4) = data.take i ++ headerTerminator := by
  have hs := indexOf_split h
  have hl : headerTerminator.length = 4 := by decide
  rw [hl] at hs
  have hle : i ≤ data.length := by have := indexOf_bound h; omega
  conv_lhs => rw [hs]
  rw [List.append_assoc, List.take_append_eq_append_take, List.take_append_eq_append_take]
  simp only [List.length_take, Nat.min_eq_left hle, hl]
  have h1 : List.take (i + 4) (List.take i data) = List.take i data :=
    List.take_of_length_le (by simp)
  rw [h1]
  simp [List.take_of_length_le, hl]

/-- What `ParseRequest` returns on a buffer with a terminator. -/
theorem ParseRequest_of_index {data : Str} {i : Nat}
    (h : indexOf headerTerminator data = some i) :
    ParseRequest data =
      some (decodeLines
        (strings.Split (strings.TrimRight (data.take i) headerTerminator) lineTerminator)
        (data.drop (i + 4))) := by
  have hb := indexOf_bound h
  rw [headerTerminator_eq] at hb
  simp only [List.length_cons, List.length_nil] at hb
  unfold ParseRequest
  rw [getHeaderBytes_of_index h]
  simp only
  unfold sliceFrom
  rw [if_pos (by constructor <;> omega)]
  simp only [Int.toNat_ofNat]
  rw [foldl_parseLine_enum, take_terminator h, TrimRight_append_terminator]

/-- Without a terminator `ParseRequest` panics at `data[offset:]`. -/
theorem ParseRequest_of_none {data : Str} (h : indexOf headerTerminator data = none) :
    ParseRequest data = none := by
  unfold ParseRequest
  rw [getHeaderBytes_of_none h]
  simp [sliceFrom]

/-! ## C2: a buffer without terminator -/

/-- For every buffer that does not contain the terminator, `ParseRequest`
does not return: `getHeaderBytes` gives the offset `-1` and the slice
`data[offset:]` is out of range. -/
theorem ParseRequest_panics_of_no_terminator (data : Str)
    (h : strings.Contains data headerTerminator = false) : ParseRequest data = none :=
  ParseRequest_of_none ((Contains_eq_false_iff _ _).mp h)

/-- `ParseRequest` returns a request exactly on the buffers that contain the
terminator. -/
theorem ParseRequest_isSome_iff (data : Str) :
    (ParseRequest data).isSome = true ↔ strings.Contains data headerTerminator = true := by
  cases h : indexOf headerTerminator data with
  | none =>
    rw [ParseRequest_of_none h, (Contains_eq_false_iff _ _).mpr h]
    simp
  | some i =>
    rw [ParseRequest_of_index h, (Contains_eq_true_iff _ _).mpr ⟨i, h⟩]
    simp

/-- C2 (evaluation at the failing input): on the buffer `GET / HTTP/1.1\r\n`,
which has a request line but no blank line, `getHeaderBytes` returns the
offset `-1` and `ParseRequest` panics at `data[offset:]` instead of returning
a request. -/
theorem C2_ParseRequest_panics_on_unterminated :
    getHeaderBytes (ascii "GET / HTTP/1.1\r\n") = some ([], -1) ∧
    sliceFrom (ascii "GET / HTTP/1.1\r\n") (-1) = none ∧
    ParseRequest (ascii "GET / HTTP/1.1\r\n") = none ∧
    ParseRequest [] = none := by decide

/-! ## C3: header section and body -/

/-- C3: if the terminator occurs in `data` at index `i` and at no smaller
index, then `getHeaderBytes` returns `(data[0 .. i+4], i+4)`, `ParseRequest`
returns a request whose body is `data[i+4 ..]`, and header bytes and body
together are `data`.  No header takes part in it: the body is the same for
every buffer with the same bytes behind the terminator. -/
theorem C3_header_section_and_body (data : Str) (i : Nat)
    (hocc : (data.drop i).take 4 = headerTerminator)
    (hfirst : ∀ j, j < i → (data.drop j).take 4 ≠ headerTerminator) :
    getHeaderBytes data = some (data.take (i + 4), ((i + 4 : Nat) : Int)) ∧
    (∃ r, ParseRequest data = some r ∧ r.Body = data.drop (i + 4) ∧
      data.take (i + 4) ++ r.Body = data) := by
  have hl : headerTerminator.length = 4 := by decide
  have hpre : ∀ j, headerTerminator <+: data.drop j ↔ (data.drop j).take 4 = headerTerminator := by
    intro j
    rw [List.prefix_iff_eq_take, hl]
    exact eq_comm
  have hi : i ≤ data.length := by
    by_contra hc
    rw [List.drop_eq_nil_of_le (by omega)] at hocc
    simp [headerTerminator_eq] at hocc
  have hidx : indexOf headerTerminator data = some i := by
    rw [indexOf_eq_some_iff]
    exact ⟨(hpre i).mpr hocc, hi, fun j hj hp => hfirst j hj ((hpre j).mp hp)⟩
  refine ⟨getHeaderBytes_of_index hidx, _, ParseRequest_of_index hidx, ?_, ?_⟩
  · cases hsp : strings.Split (strings.TrimRight (data.take i) headerTerminator) lineTerminator
      <;> rfl
  · have : (decodeLines
        (strings.Split (strings.TrimRight (data.take i) headerTerminator) lineTerminator)
        (data.drop (i + 4))).Body = data.drop (i + 4) := by
      cases hsp : strings.Split (strings.TrimRight (data.take i) headerTerminator) lineTerminator
        <;> rfl
    rw [this, List.take_append_drop]

theorem C3_header_section_and_body_witness :
    ((ascii "GET / HTTP/1.1\r\nContent-Length: 1\r\n\r\nabc\r\n\r\n").drop 33).take 4 =
      headerTerminator ∧
    (∀ j, j < 33 →
      ((ascii "GET / HTTP/1.1\r\nContent-Length: 1\r\n\r\nabc\r\n\r\n").drop j).take 4 ≠
        headerTerminator) ∧
    getHeaderBytes (ascii "GET / HTTP/1.1\r\nContent-Length: 1\r\n\r\nabc\r\n\r\n") =
      some ((ascii "GET / HTTP/1.1\r\nContent-Length: 1\r\n\r\nabc\r\n\r\n").take (33 + 4),
        ((33 + 4 : Nat) : Int)) ∧
    (∃ r, ParseRequest (ascii "GET / HTTP/1.1\r\nContent-Length: 1\r\n\r\nabc\r\n\r\n") = some r ∧
      r.Body = (ascii "GET / HTTP/1.1\r\nContent-Length: 1\r\n\r\nabc\r\n\r\n").drop (33 + 4) ∧
      (ascii "GET / HTTP/1.1\r\nContent-Length: 1\r\n\r\nabc\r\n\r\n").take (33 + 4) ++ r.Body =
        ascii "GET / HTTP/1.1\r\nContent-Length: 1\r\n\r\nabc\r\n\r\n") :=
  ⟨by decide, by decide,
    C3_header_section_and_body
      (ascii "GET / HTTP/1.1\r\nContent-Length: 1\r\n\r\nabc\r\n\r\n") 33 (by decide) (by decide)⟩

/-! ## C8: status setters -/

/-- C8: `SetStatusOK`, `SetStatusNotFound` and `SetStatusCreated` set the pair
(code, text) to (200, "OK"), (404, "Not Found") and (201, "Created") and leave
version, headers and body as they are; `SetStatus n` sets the code to `n` and
leaves the text and every other field as they are. -/
theorem C8_status_setters (r : Response) (n : Int) :
    (r.SetStatusOK.StatusCode = 200 ∧ r.SetStatusOK.StatusText = [79, 75] ∧
      r.SetStatusOK.Version = r.Version ∧ r.SetStatusOK.Headers = r.Headers ∧
      r.SetStatusOK.Body = r.Body) ∧
    (r.SetStatusNotFound.StatusCode = 404 ∧
      r.SetStatusNotFound.StatusText = [78, 111, 116, 32, 70, 111, 117, 110, 100] ∧
      r.SetStatusNotFound.Version = r.Version ∧ r.SetStatusNotFound.Headers = r.Headers ∧
      r.SetStatusNotFound.Body = r.Body) ∧
    (r.SetStatusCreated.StatusCode = 201 ∧
      r.SetStatusCreated.StatusText = [67, 114, 101, 97, 116, 101, 100] ∧
      r.SetStatusCreated.Version = r.Version ∧ r.SetStatusCreated.Headers = r.Headers ∧
      r.SetStatusCreated.Body = r.Body) ∧
    ((r.SetStatus n).StatusCode = n ∧ (r.SetStatus n).StatusText = r.StatusText ∧
      (r.SetStatus n).Version = r.Version ∧ (r.SetStatus n).Headers = r.Headers ∧
      (r.SetStatus n).Body = r.Body) := by
  have hok : ascii "OK" = [79, 75] := by decide
  have hnf : ascii "Not Found" = [78, 111, 116, 32, 70, 111, 117, 110, 100] := by decide
  have hcr : ascii "Created" = [67, 114, 101, 97, 116, 101, 100] := by decide
  exact ⟨⟨rfl, hok, rfl, rfl, rfl⟩, ⟨rfl, hnf, rfl, rfl, rfl⟩, ⟨rfl, hcr, rfl, rfl, rfl⟩,
    ⟨rfl, rfl, rfl, rfl, rfl⟩⟩

/-! ## C7: the encoder -/

theorem foldl_append_flatten {α : Type} (f : α → Str) (l : List α) (b : Str) :
    l.foldl (fun acc a => acc ++ f a) b = b ++ (l.map f).flatten := by
  induction l generalizing b with
  | nil => simp
  | cons a t ih => simp [ih]

theorem Encode_eq (r : Response) (order : List (Str × Str)) :
    r.Encode order = statusLine r ++ (order.map headerLine).flatten ++ [13, 10] ++ r.Body := by
  unfold Response.Encode statusLine
  simp only [lineTerminator_eq, ascii_space, ascii_colon_space, List.nil_append]
  show List.foldl (fun acc a => acc ++ headerLine a) _ order ++ [13, 10] ++ r.Body = _
  rw [foldl_append_flatten headerLine]

theorem length_flatten_perm {l1 l2 : List Str} (h : l1.Perm l2) : l1.flatten.length = l2.flatten.length := by
  induction h with
  | nil => rfl
  | cons x _ ih => simp [ih]
  | swap x y l => simp; omega
  | trans _ _ ih1 ih2 => exact ih1.trans ih2

/-- C7: whatever the order in which the entries of `r.Headers` are visited,
the output of `Encode` is the status line `Version SP decimal(StatusCode) SP
StatusText CRLF`, then one line `key: value CRLF` per visited entry, then one
`CRLF`, then the body as it is; the lines written are those of the entries of
the map, each once; with no header the output is status line, `CRLF`, body;
and two orders of visit give outputs of the same length whose header lines
are a permutation of each other. -/
theorem C7_Encode_format (r : Response) (order order2 : List (Str × Str))
    (h1 : order.Perm r.Headers) (h2 : order2.Perm r.Headers) :
    r.Encode order =
      r.Version ++ [32] ++ strconv.Itoa r.StatusCode ++ [32] ++ r.StatusText ++ [13, 10]
        ++ (order.map (fun kv => kv.1 ++ [58, 32] ++ kv.2 ++ [13, 10])).flatten
        ++ [13, 10] ++ r.Body ∧
    (order.map headerLine).Perm (r.Headers.map headerLine) ∧
    (r.Headers = [] →
      r.Encode order =
        r.Version ++ [32] ++ strconv.Itoa r.StatusCode ++ [32] ++ r.StatusText ++ [13, 10]
          ++ [13, 10] ++ r.Body) ∧
    (r.Encode order).length = (r.Encode order2).length ∧
    (∃ head tail : Str,
      r.Encode order = head ++ (order.map headerLine).flatten ++ tail ∧
      r.Encode order2 = head ++ (order2.map headerLine).flatten ++ tail ∧
      (order.map headerLine).Perm (order2.map headerLine)) := by
  have hp : (order.map headerLine).Perm (order2.map headerLine) :=
    (h1.trans h2.symm).map headerLine
  refine ⟨Encode_eq r order, h1.map headerLine, ?_, ?_, ?_⟩
  · intro hnil
    rw [hnil] at h1
    rw [List.perm_nil.mp h1, Encode_eq]
    simp [statusLine]
  · rw [Encode_eq, Encode_eq]
    simp only [List.length_append, length_flatten_perm hp]
  · exact ⟨statusLine r, [13, 10] ++ r.Body, by rw [Encode_eq]; simp, by rw [Encode_eq]; simp, hp⟩

theorem C7_Encode_format_witness :
    List.Perm [(ascii "A", ascii "1"), (ascii "B", ascii "2")] twoHeaderResponse.Headers ∧
    List.Perm [(ascii "B", ascii "2"), (ascii "A", ascii "1")] twoHeaderResponse.Headers ∧
    twoHeaderResponse.Encode [(ascii "A", ascii "1"), (ascii "B", ascii "2")] =
      ascii "HTTP/1.1 200 OK\r\nA: 1\r\nB: 2\r\n\r\nhi" ∧
    twoHeaderResponse.Encode [(ascii "B", ascii "2"), (ascii "A", ascii "1")] =
      ascii "HTTP/1.1 200 OK\r\nB: 2\r\nA: 1\r\n\r\nhi" ∧
    (twoHeaderResponse.Encode [(ascii "A", ascii "1"), (ascii "B", ascii "2")]).length =
      (twoHeaderResponse.Encode [(ascii "B", ascii "2"), (ascii "A", ascii "1")]).length :=
  ⟨List.Perm.refl _, List.Perm.swap _ _ _, by decide, by decide,
    (C7_Encode_format twoHeaderResponse
      [(ascii "A", ascii "1"), (ascii "B", ascii "2")]
      [(ascii "B", ascii "2"), (ascii "A", ascii "1")]
      (List.Perm.refl _) (List.Perm.swap _ _ _)).2.2.2.1⟩

/-! ## C9 and C10: the echo route -/

theorem root_not_echo : strings.Contains (ascii "/") (ascii "/echo/") = false := by decide

/-- The echo route: what `CreateResponse` returns when the path contains
`/echo/`. -/
theorem CreateResponse_echo (directoryArg : Str) (fs : FS) (request : Request)
    (h : strings.Contains request.Path (ascii "/echo/") = true) :
    CreateResponse directoryArg fs request =
      ({ Version := request.Version, StatusCode := 200, StatusText := ascii "OK",
         Headers := [(ascii "Content-Type", ascii "text/plain"),
           (ascii "Content-Length",
             strconv.Itoa (strings.TrimPrefix request.Path (ascii "/echo/")).length)],
         Body := strings.TrimPrefix request.Path (ascii "/echo/") }, fs) := by
  have hroot : request.Path ≠ ascii "/" := by
    intro hp
    rw [hp, root_not_echo] at h
    exact absurd h (by simp)
  have hne : ¬ (ascii "Content-Type" = ascii "Content-Length") := by decide
  unfold CreateResponse
  simp only [hroot, if_false, h, if_true, Response.SetStatusOK, StrMap.set, hne]

/-- C9 (evaluation at the failing input): the path `/foo/echo/bar` is not `/`
and contains `/echo/`; the part of it behind the first `/echo/` is `bar`, but
the body of the response is the whole path `/foo/echo/bar` and the
`Content-Length` is `13`: the route is chosen with `strings.Contains`, the
content is cut with `strings.TrimPrefix`, which removes `/echo/` only from
the start of the path. -/
theorem C9_echo_body_is_whole_path :
    (requestWithPath (ascii "/foo/echo/bar")).Path ≠ ascii "/" ∧
    strings.Contains (requestWithPath (ascii "/foo/echo/bar")).Path (ascii "/echo/") = true ∧
    strings.HasPrefix (requestWithPath (ascii "/foo/echo/bar")).Path (ascii "/echo/") = false ∧
    afterFirstInstance (ascii "/foo/echo/bar") (ascii "/echo/") = ascii "bar" ∧
    strings.TrimPrefix (ascii "/foo/echo/bar") (ascii "/echo/") = ascii "/foo/echo/bar" ∧
    (CreateResponse [] ⟨[], []⟩ (requestWithPath (ascii "/foo/echo/bar"))).1.StatusCode = 200 ∧
    (CreateResponse [] ⟨[], []⟩ (requestWithPath (ascii "/foo/echo/bar"))).1.Body =
      ascii "/foo/echo/bar" ∧
    (CreateResponse [] ⟨[], []⟩ (requestWithPath (ascii "/foo/echo/bar"))).1.Body ≠
      afterFirstInstance (requestWithPath (ascii "/foo/echo/bar")).Path (ascii "/echo/") ∧
    (CreateResponse [] ⟨[], []⟩ (requestWithPath (ascii "/foo/echo/bar"))).1.Headers.get
      (ascii "Content-Length") = some (ascii "13") := by decide

/-- The claim C9 outside the defect: for every request whose path contains
`/echo/` (such a path is never `/`), `CreateResponse` returns status 200 `OK`,
the headers `Content-Type: text/plain` and `Content-Length`, the latter the
decimal length of the body, and leaves the file system alone; when the path
starts with `/echo/`, the body is the part of the path behind the first
`/echo/`. -/
theorem echo_route_of_leading_echo (directoryArg : Str) (fs : FS) (request : Request)
    (h : strings.Contains request.Path (ascii "/echo/") = true) :
    request.Path ≠ ascii "/" ∧
    (CreateResponse directoryArg fs request).1.StatusCode = 200 ∧
    (CreateResponse directoryArg fs request).1.StatusText = ascii "OK" ∧
    (CreateResponse directoryArg fs request).1.Headers.get (ascii "Content-Type") =
      some (ascii "text/plain") ∧
    (CreateResponse directoryArg fs request).1.Headers.get (ascii "Content-Length") =
      some (strconv.Itoa (CreateResponse directoryArg fs request).1.Body.length) ∧
    (strings.HasPrefix request.Path (ascii "/echo/") = true →
      (CreateResponse directoryArg fs request).1.Body = request.Path.drop 6 ∧
      (CreateResponse directoryArg fs request).1.Body =
        afterFirstInstance request.Path (ascii "/echo/")) ∧
    (CreateResponse directoryArg fs request).2 = fs := by
  have hne : ¬ (ascii "Content-Type" = ascii "Content-Length") := by decide
  have hlen : (ascii "/echo/").length = 6 := by decide
  have hroot : request.Path ≠ ascii "/" := by
    intro hp
    rw [hp, root_not_echo] at h
    exact absurd h (by simp)
  rw [CreateResponse_echo directoryArg fs request h]
  refine ⟨hroot, rfl, rfl, by simp [StrMap.get], by simp [StrMap.get, hne], ?_, rfl⟩
  intro hp
  have hidx : indexOf (ascii "/echo/") request.Path = some 0 := by
    obtain ⟨t, ht⟩ := List.isPrefixOf_iff_prefix.mp hp
    rw [← ht]
    exact indexOf_self_append _ _
  simp [strings.TrimPrefix, hp, afterFirstInstance, hidx, hlen]

theorem echo_route_of_leading_echo_example :
    strings.Contains (requestWithPath (ascii "/echo/abc")).Path (ascii "/echo/") = true ∧
    (CreateResponse [] ⟨[], []⟩ (requestWithPath (ascii "/echo/abc"))).1.StatusCode = 200 ∧
    (CreateResponse [] ⟨[], []⟩ (requestWithPath (ascii "/echo/abc"))).1.Headers.get
      (ascii "Content-Length") =
      some (strconv.Itoa
        (CreateResponse [] ⟨[], []⟩ (requestWithPath (ascii "/echo/abc"))).1.Body.length) ∧
    (strings.HasPrefix (requestWithPath (ascii "/echo/abc")).Path (ascii "/echo/") = true →
      (CreateResponse [] ⟨[], []⟩ (requestWithPath (ascii "/echo/abc"))).1.Body =
        (requestWithPath (ascii "/echo/abc")).Path.drop 6 ∧
      (CreateResponse [] ⟨[], []⟩ (requestWithPath (ascii "/echo/abc"))).1.Body =
        afterFirstInstance (requestWithPath (ascii "/echo/abc")).Path (ascii "/echo/")) :=
  ⟨by decide,
   (echo_route_of_leading_echo [] ⟨[], []⟩ (requestWithPath (ascii "/echo/abc"))
      (by decide)).2.1,
   (echo_route_of_leading_echo [] ⟨[], []⟩ (requestWithPath (ascii "/echo/abc"))
      (by decide)).2.2.2.2.1,
   (echo_route_of_leading_echo [] ⟨[], []⟩ (requestWithPath (ascii "/echo/abc"))
      (by decide)).2.2.2.2.2.1⟩

/-! ### C10 -/

theorem indexOf_two_append_none (x y : Byte) (a b : Str) (ha : indexOf [x, y] a = none)
    (hb : indexOf [x, y] b = none) (hr : a.getLast? ≠ some x ∨ b.head? ≠ some y) :
    indexOf [x, y] (a ++ b) = none := by
  rw [indexOf_append_free x y [] a b ha hr, hb]; rfl

theorem TrimRight_concat_of_not_mem (s c : Str) (b : Byte) (hb : b ∉ c) :
    strings.TrimRight (s ++ [b]) c = s ++ [b] := by
  unfold strings.TrimRight
  rw [List.rdropWhile_concat_neg]
  simpa using hb

/-- Decoding a buffer given as header section, terminator and body, when the
terminator does not occur earlier. -/
theorem ParseRequest_of_section (sec body : Str)
    (hidx : indexOf headerTerminator (sec ++ headerTerminator ++ body) = some sec.length) :
    ParseRequest (sec ++ headerTerminator ++ body) =
      some (decodeLines
        (strings.Split (strings.TrimRight sec headerTerminator) lineTerminator) body) := by
  have hl : headerTerminator.length = 4 := by decide
  have htake : (sec ++ headerTerminator ++ body).take sec.length = sec := by
    rw [List.append_assoc, List.take_left']; rfl
  have hdrop : (sec ++ headerTerminator ++ body).drop (sec.length + 4) = body := by
    rw [← hl, ← List.length_append, List.drop_left']; rfl
  rw [ParseRequest_of_index hidx, htake, hdrop]

/-- A section without a line end is followed by the first terminator. -/
theorem indexOf_terminator_of_free (sec body : Str) (hfree : indexOf [13, 10] sec = none) :
    indexOf headerTerminator (sec ++ headerTerminator ++ body) = some sec.length := by
  rw [List.append_assoc, headerTerminator_eq,
    indexOf_append_free 13 10 [13, 10] sec _ hfree (Or.inr (by simp))]
  have : indexOf [13, 10, 13, 10] ([13, 10, 13, 10] ++ body) = some 0 :=
    indexOf_self_append _ _
  rw [this]; simp

/-- The request line `GET /echo/s HTTP/1.1` is decoded into its three tokens
when `s` holds no space. -/
theorem parseFirstLine_echo (s : Str) (hsp : strings.Contains s (ascii " ") = false) :
    parseFirstLine (ascii "GET /echo/" ++ s ++ ascii " HTTP/1.1") =
      (ascii "GET", ascii "/echo/" ++ s, ascii "HTTP/1.1", none) := by
  have h32 : (32 : Byte) ∉ s := by
    rw [ascii_space] at hsp
    exact (indexOf_one_none_iff 32 s).mp ((Contains_eq_false_iff _ _).mp hsp)
  have hshape : ascii "GET /echo/" ++ s ++ ascii " HTTP/1.1" =
      ascii "GET" ++ [32] ++ ((ascii "/echo/" ++ s) ++ [32] ++ ascii "HTTP/1.1") := by
    have e1 : ascii "GET /echo/" = ascii "GET" ++ [32] ++ ascii "/echo/" := by decide
    have e2 : ascii " HTTP/1.1" = [32] ++ ascii "HTTP/1.1" := by decide
    rw [e1, e2]; simp
  have hpath : (32 : Byte) ∉ ascii "/echo/" ++ s := by
    intro hmem
    rcases List.mem_append.mp hmem with hm | hm
    · exact absurd hm (by decide)
    · exact h32 hm
  unfold parseFirstLine
  rw [ascii_space, hshape, Split_append_one 32 _ _ (by decide), Split_append_one 32 _ _ hpath,
    Split_of_none _ _ ((indexOf_one_none_iff 32 _).mpr (by decide))]

/-- C10: for every `s` without a space and without `\r\n`, the buffer
`GET /echo/s HTTP/1.1\r\n\r\n` is decoded, and the response made from the
decoded request has version `HTTP/1.1`, status 200 `OK`, body `s`, and as
headers exactly `Content-Type: text/plain` and `Content-Length:` the decimal
length of `s`.  The file system plays no part. -/
theorem C10_echo_pipeline (directoryArg : Str) (fs : FS) (s : Str)
    (hsp : strings.Contains s (ascii " ") = false)
    (hcrlf : strings.Contains s (ascii "\r\n") = false) :
    ∃ request,
      ParseRequest (ascii "GET /echo/" ++ s ++ ascii " HTTP/1.1\r\n\r\n") = some request ∧
      request.Path = ascii "/echo/" ++ s ∧
      CreateResponse directoryArg fs request =
        ({ Version := ascii "HTTP/1.1", StatusCode := 200, StatusText := ascii "OK",
           Headers := [(ascii "Content-Type", ascii "text/plain"),
             (ascii "Content-Length", strconv.Itoa s.length)],
           Body := s }, fs) := by
  have hfree_s : indexOf [13, 10] s = none := (Contains_eq_false_iff _ _).mp hcrlf
  -- the header section holds no line end
  have hfreeP : indexOf [13, 10] (ascii "GET /echo/" ++ s ++ ascii " HTTP/1.1") = none := by
    rw [List.append_assoc]
    apply indexOf_two_append_none 13 10 _ _ (by decide)
    · exact indexOf_two_append_none 13 10 _ _ hfree_s (by decide) (Or.inr (by decide))
    · left; decide
  have hdata : ascii "GET /echo/" ++ s ++ ascii " HTTP/1.1\r\n\r\n" =
      (ascii "GET /echo/" ++ s ++ ascii " HTTP/1.1") ++ headerTerminator ++ [] := by
    have e : ascii " HTTP/1.1\r\n\r\n" = ascii " HTTP/1.1" ++ headerTerminator := by decide
    rw [e]; simp
  have htrim : strings.TrimRight (ascii "GET /echo/" ++ s ++ ascii " HTTP/1.1") headerTerminator =
      ascii "GET /echo/" ++ s ++ ascii " HTTP/1.1" := by
    have e : ascii " HTTP/1.1" = ascii " HTTP/1." ++ [49] := by decide
    rw [e, ← List.append_assoc]
    exact TrimRight_concat_of_not_mem _ _ 49 (by decide)
  have hecho : strings.Contains (ascii "/echo/" ++ s) (ascii "/echo/") = true :=
    (Contains_eq_true_iff _ _).mpr ⟨0, indexOf_self_append _ _⟩
  have htp : strings.TrimPrefix (ascii "/echo/" ++ s) (ascii "/echo/") = s := by
    have hp : strings.HasPrefix (ascii "/echo/" ++ s) (ascii "/echo/") = true :=
      List.isPrefixOf_iff_prefix.mpr (List.prefix_append _ _)
    simp [strings.TrimPrefix, hp]
  have hreq : ParseRequest (ascii "GET /echo/" ++ s ++ ascii " HTTP/1.1\r\n\r\n") =
      some { Method := ascii "GET", Path := ascii "/echo/" ++ s, Version := ascii "HTTP/1.1",
             Headers := [], Body := [] } := by
    rw [hdata, ParseRequest_of_section _ _ (indexOf_terminator_of_free _ _ hfreeP), htrim,
      lineTerminator_eq, Split_of_none _ _ hfreeP]
    simp only [decodeLines, parseFirstLine_echo s hsp, headersOf, List.foldl_nil]
  refine ⟨_, hreq, rfl, ?_⟩
  rw [CreateResponse_echo _ _ _ hecho]
  simp only [htp]

theorem C10_echo_pipeline_witness :
    strings.Contains (ascii "abc") (ascii " ") = false ∧
    strings.Contains (ascii "abc") (ascii "\r\n") = false ∧
    ∃ request,
      ParseRequest (ascii "GET /echo/" ++ ascii "abc" ++ ascii " HTTP/1.1\r\n\r\n") =
        some request ∧
      request.Path = ascii "/echo/" ++ ascii "abc" ∧
      CreateResponse [] ⟨[], []⟩ request =
        ({ Version := ascii "HTTP/1.1", StatusCode := 200, StatusText := ascii "OK",
           Headers := [(ascii "Content-Type", ascii "text/plain"),
             (ascii "Content-Length", strconv.Itoa (ascii "abc").length)],
           Body := ascii "abc" }, ⟨[], []⟩) :=
  ⟨by decide, by decide,
    C10_echo_pipeline [] ⟨[], []⟩ (ascii "abc") (by decide) (by decide)⟩

/-- Scenario 2 of the specification, evaluated: the request
`GET /echo/abc HTTP/1.1` gets the body `abc` and `Content-Length: 3`. -/
theorem scenario_echo_abc :
    (ParseRequest (ascii "GET /echo/abc HTTP/1.1\r\n\r\n")).map
        (fun request => (CreateResponse [] ⟨[], []⟩ request).1) =
      some { Version := ascii "HTTP/1.1", StatusCode := 200, StatusText := ascii "OK",
             Headers := [(ascii "Content-Type", ascii "text/plain"),
               (ascii "Content-Length", ascii "3")],
             Body := ascii "abc" } ∧
    handleConnection [] ⟨[], []⟩ (fun r => r.Headers) (ascii "GET /echo/abc HTTP/1.1\r\n\r\n") =
      some (ascii "HTTP/1.1 200 OK\r\nContent-Type: text/plain\r\nContent-Length: 3\r\n\r\nabc",
        ⟨[], []⟩) := by decide

/-! ## C6: a malformed request line -/

theorem parseFirstLine_of_length_ne (line : Str)
    (h : (strings.Split line (ascii " ")).length ≠ 3) :
    parseFirstLine line = ([], [], [], some (ascii "firstline malformed")) := by
  unfold parseFirstLine
  rcases hs : strings.Split line (ascii " ") with _ | ⟨a, _ | ⟨b, _ | ⟨c, _ | ⟨d, l⟩⟩⟩⟩
  · rfl
  · rfl
  · rfl
  · rw [hs] at h; simp at h
  · rfl

/-- Trimming line ends does not change the number of tokens between spaces. -/
theorem Split_space_length_TrimRight (m : Str) :
    (strings.Split (strings.TrimRight m headerTerminator) (ascii " ")).length =
      (strings.Split m (ascii " ")).length := by
  rw [ascii_space, Split_one_length, Split_one_length,
    TrimRight_count 32 m headerTerminator (by decide)]

/-- The lines that the decoder sees when the header section is `l0 ++ x`,
where `l0` holds no line end and `x` is empty or starts with a line end: the
first line is `l0`, or a trimmed `l0` when nothing but line-end bytes follows
it, and the other lines come from `x` alone. -/
theorem lines_of_section (l0 x : Str) (hfree : indexOf [13, 10] l0 = none)
    (hx : x = [] ∨ x = [13] ∨ ∃ r, x = [13, 10] ++ r) :
    strings.Split (strings.TrimRight (l0 ++ x) headerTerminator) lineTerminator =
      (if strings.TrimRight x headerTerminator = [] then strings.TrimRight l0 headerTerminator
        else l0) :: restLines x := by
  unfold restLines
  by_cases hy : strings.TrimRight x headerTerminator = []
  · rw [if_pos hy, if_pos hy, TrimRight_append, if_pos hy, lineTerminator_eq,
      Split_of_none _ _ (TrimRight_free _ _ _ hfree)]
  · rw [if_neg hy, if_neg hy]
    rcases hx with hx | hx | ⟨r, hr⟩
    · subst hx; exact absurd (by decide) hy
    · subst hx; exact absurd (by decide) hy
    · subst hr
      have hr2 : strings.TrimRight r headerTerminator ≠ [] := by
        intro h0
        apply hy
        rw [TrimRight_append, if_pos h0]
        decide
      rw [TrimRight_append, if_neg hy, TrimRight_append, if_neg hr2, lineTerminator_eq,
        ← List.append_assoc, Split_append_two 13 10 (by decide) _ _ hfree]
      simp

/-- Decoding a terminated buffer whose first line is `l0`: the terminator is
found `k` bytes behind `l0`. -/
theorem ParseRequest_line0 (l0 t : Str) (k : Nat) (hfree : indexOf [13, 10] l0 = none)
    (hk : indexOf headerTerminator (lineTerminator ++ t) = some k) :
    ParseRequest (l0 ++ lineTerminator ++ t) =
      some (decodeLines
        ((if strings.TrimRight ((lineTerminator ++ t).take k) headerTerminator = []
            then strings.TrimRight l0 headerTerminator else l0)
          :: restLines ((lineTerminator ++ t).take k))
        ((lineTerminator ++ t).drop (k + 4))) := by
  have hl : headerTerminator.length = 4 := by decide
  have hsplit := indexOf_split hk
  rw [hl] at hsplit
  have hkb := indexOf_bound hk
  have hX : (lineTerminator ++ t).take k = [] ∨ (lineTerminator ++ t).take k = [13] ∨
      ∃ r, (lineTerminator ++ t).take k = [13, 10] ++ r := by
    rw [lineTerminator_eq]
    rcases k with _ | _ | k
    · left; rfl
    · right; left; rfl
    · right; right; exact ⟨t.take k, by simp⟩
  have hidx : indexOf headerTerminator
      (l0 ++ (lineTerminator ++ t).take k ++ headerTerminator ++ (lineTerminator ++ t).drop (k + 4))
      = some (l0 ++ (lineTerminator ++ t).take k).length := by
    rw [List.append_assoc, List.append_assoc, ← List.append_assoc _ headerTerminator, ← hsplit]
    have h1 : headerTerminator = 13 :: 10 :: [13, 10] := headerTerminator_eq
    rw [h1, indexOf_append_free 13 10 [13, 10] l0 _ hfree
      (Or.inr (by simp [lineTerminator_eq])), ← h1, hk]
    simp only [Option.map_some', List.length_append, List.length_take, Option.some.injEq]
    rw [hl] at hkb
    simp only [List.length_append] at hkb ⊢
    omega
  have hdata : l0 ++ lineTerminator ++ t =
      l0 ++ (lineTerminator ++ t).take k ++ headerTerminator
        ++ (lineTerminator ++ t).drop (k + 4) := by
    rw [List.append_assoc l0 lineTerminator, List.append_assoc, List.append_assoc,
      ← List.append_assoc _ headerTerminator, ← hsplit]
  rw [hdata, ParseRequest_of_section _ _ hidx, lines_of_section l0 _ hfree hX]

/-- Every terminated buffer has a first line: it is `m ++ CRLF ++ t` with no
line end in `m`. -/
theorem exists_first_line (data : Str) (h : strings.Contains data headerTerminator = true) :
    ∃ m t, data = m ++ lineTerminator ++ t ∧ strings.Contains m lineTerminator = false := by
  obtain ⟨i, hi⟩ := (Contains_eq_true_iff _ _).mp h
  have hS : indexOf lineTerminator data ≠ none := by
    intro hnone
    rw [indexOf_eq_none_iff] at hnone
    obtain ⟨hp, _, _⟩ := (indexOf_eq_some_iff _ _ _).mp hi
    apply hnone i
    exact List.IsPrefix.trans (by decide : lineTerminator <+: headerTerminator) hp
  obtain ⟨j, hj⟩ := Option.ne_none_iff_exists'.mp hS
  refine ⟨data.take j, data.drop (j + lineTerminator.length), indexOf_split hj, ?_⟩
  rw [Contains_eq_false_iff, indexOf_eq_none_iff]
  intro q hq
  obtain ⟨_, hjl, hfirst⟩ := (indexOf_eq_some_iff _ _ _).mp hj
  have hlen := hq.length_le
  simp only [List.length_drop, List.length_take, lineTerminator_eq, List.length_cons,
    List.length_nil] at hlen
  apply hfirst q (by omega)
  have : List.drop q (List.take j data) <+: List.drop q data := by
    rw [List.drop_take]
    exact List.take_prefix _ _
  exact hq.trans this
theorem parseFirstLine_of_length_eq (line : Str)
    (h : (strings.Split line (ascii " ")).length = 3) :
    strings.Split line (ascii " ") =
      [(parseFirstLine line).1, (parseFirstLine line).2.1, (parseFirstLine line).2.2.1] := by
  unfold parseFirstLine
  rcases hs : strings.Split line (ascii " ") with _ | ⟨a, _ | ⟨b, _ | ⟨c, _ | ⟨d, l⟩⟩⟩⟩
  · rw [hs] at h; simp at h
  · rw [hs] at h; simp at h
  · rw [hs] at h; simp at h
  · rfl
  · rw [hs] at h; simp at h

/-- C6: take a terminated buffer whose first line `m` does not split on a
space into exactly three tokens, and the same buffer with a well-formed
request line `w` in place of `m`.  `ParseRequest` returns a request for both;
for the first, method, path and version are empty, and its header map and its
body are those of the second (whose method, path and version are the three
tokens of `w`, or of `w` without trailing line-end bytes): the lines behind
the first are decoded all the same. -/
theorem C6_malformed_request_line (m w t : Str)
    (hm : strings.Contains m lineTerminator = false)
    (hterm : strings.Contains (m ++ lineTerminator ++ t) headerTerminator = true)
    (hbad : (strings.Split m (ascii " ")).length ≠ 3)
    (hw : strings.Contains w lineTerminator = false)
    (hgood : (strings.Split w (ascii " ")).length = 3) :
    ∃ r r2,
      ParseRequest (m ++ lineTerminator ++ t) = some r ∧
      ParseRequest (w ++ lineTerminator ++ t) = some r2 ∧
      r.Method = [] ∧ r.Path = [] ∧ r.Version = [] ∧
      r.Headers = r2.Headers ∧ r.Body = r2.Body ∧
      (strings.Split w (ascii " ") = [r2.Method, r2.Path, r2.Version] ∨
        strings.Split (strings.TrimRight w headerTerminator) (ascii " ") =
          [r2.Method, r2.Path, r2.Version]) := by
  have hfm : indexOf [13, 10] m = none := (Contains_eq_false_iff _ _).mp hm
  have hfw : indexOf [13, 10] w = none := (Contains_eq_false_iff _ _).mp hw
  obtain ⟨i, hi⟩ := (Contains_eq_true_iff _ _).mp hterm
  -- the terminator lies behind the first line
  have hk : ∃ k, indexOf headerTerminator (lineTerminator ++ t) = some k := by
    have h1 : headerTerminator = 13 :: 10 :: [13, 10] := headerTerminator_eq
    rw [List.append_assoc, h1, indexOf_append_free 13 10 [13, 10] m _ hfm
      (Or.inr (by simp [lineTerminator_eq])), ← h1] at hi
    cases hx : indexOf headerTerminator (lineTerminator ++ t) with
    | none => rw [hx] at hi; simp at hi
    | some k => exact ⟨k, rfl⟩
  obtain ⟨k, hk⟩ := hk
  have hfirst : parseFirstLine
      (if strings.TrimRight ((lineTerminator ++ t).take k) headerTerminator = []
        then strings.TrimRight m headerTerminator else m) =
      ([], [], [], some (ascii "firstline malformed")) := by
    apply parseFirstLine_of_length_ne
    by_cases hc : strings.TrimRight ((lineTerminator ++ t).take k) headerTerminator = []
    · rw [if_pos hc, Split_space_length_TrimRight]; exact hbad
    · rw [if_neg hc]; exact hbad
  refine ⟨_, _, ParseRequest_line0 m t k hfm hk, ParseRequest_line0 w t k hfw hk, ?_, ?_, ?_,
    rfl, rfl, ?_⟩
  · simp only [decodeLines, hfirst]
  · simp only [decodeLines, hfirst]
  · simp only [decodeLines, hfirst]
  · simp only [decodeLines]
    by_cases hc : strings.TrimRight ((lineTerminator ++ t).take k) headerTerminator = []
    · right
      simp only [if_pos hc]
      exact parseFirstLine_of_length_eq _ (by rw [Split_space_length_TrimRight]; exact hgood)
    · left
      simp only [if_neg hc]
      exact parseFirstLine_of_length_eq _ hgood

theorem C6_malformed_request_line_witness :
    strings.Contains (ascii "GET  / HTTP/1.1") lineTerminator = false ∧
    strings.Contains (ascii "GET  / HTTP/1.1" ++ lineTerminator ++ ascii "A: b\r\n\r\nxyz")
      headerTerminator = true ∧
    (strings.Split (ascii "GET  / HTTP/1.1") (ascii " ")).length ≠ 3 ∧
    strings.Contains (ascii "GET / HTTP/1.1") lineTerminator = false ∧
    (strings.Split (ascii "GET / HTTP/1.1") (ascii " ")).length = 3 ∧
    ∃ r r2,
      ParseRequest (ascii "GET  / HTTP/1.1" ++ lineTerminator ++ ascii "A: b\r\n\r\nxyz") =
        some r ∧
      ParseRequest (ascii "GET / HTTP/1.1" ++ lineTerminator ++ ascii "A: b\r\n\r\nxyz") =
        some r2 ∧
      r.Method = [] ∧ r.Path = [] ∧ r.Version = [] ∧
      r.Headers = r2.Headers ∧ r.Body = r2.Body ∧
      (strings.Split (ascii "GET / HTTP/1.1") (ascii " ") = [r2.Method, r2.Path, r2.Version] ∨
        strings.Split (strings.TrimRight (ascii "GET / HTTP/1.1") headerTerminator) (ascii " ") =
          [r2.Method, r2.Path, r2.Version]) :=
  ⟨by decide, by decide, by decide, by decide, by decide,
    C6_malformed_request_line (ascii "GET  / HTTP/1.1") (ascii "GET / HTTP/1.1")
      (ascii "A: b\r\n\r\nxyz") (by decide) (by decide) (by decide) (by decide) (by decide)⟩

/-- C6 evaluated: a request line of two tokens, and one with a double space,
leave method, path and version empty while the header and the body are
decoded. -/
theorem C6_examples :
    ParseRequest (ascii "GET /\r\nA: b\r\n\r\nxyz") =
      some { Method := [], Path := [], Version := [],
             Headers := [(ascii "A", ascii "b")], Body := ascii "xyz" } ∧
    ParseRequest (ascii "GET  / HTTP/1.1\r\nA: b\r\n\r\nxyz") =
      some { Method := [], Path := [], Version := [],
             Headers := [(ascii "A", ascii "b")], Body := ascii "xyz" } ∧
    ParseRequest (ascii "GET / HTTP/1.1\r\nA: b\r\n\r\nxyz") =
      some { Method := ascii "GET", Path := ascii "/", Version := ascii "HTTP/1.1",
             Headers := [(ascii "A", ascii "b")], Body := ascii "xyz" } := by decide

/-! ## C1, C4, C5: where the decoder departs from the specification -/

/-- C1 (evaluation at the failing input): the buffer is the request line
`GET / HTTP/1.1`, the header line `X: v\n` and the terminator.  The request
line splits into three tokens, the header line splits on `: ` into the two
tokens `X` and `v\n`, and no line holds `\r\n`; yet the decoded header value
is `v`, not `v\n`: `strings.TrimRight` removes every trailing `\r` and `\n`
of the header section, not only the terminator. -/
theorem C1_trailing_line_end_bytes_lost :
    ascii "GET / HTTP/1.1\r\nX: v\n\r\n\r\n" =
      ascii "GET / HTTP/1.1" ++ lineTerminator ++ (ascii "X: v\n" ++ lineTerminator)
        ++ lineTerminator ++ [] ∧
    strings.Split (ascii "GET / HTTP/1.1") (ascii " ") =
      [ascii "GET", ascii "/", ascii "HTTP/1.1"] ∧
    strings.Split (ascii "X: v\n") (ascii ": ") = [ascii "X", ascii "v\n"] ∧
    strings.Contains (ascii "GET / HTTP/1.1") lineTerminator = false ∧
    strings.Contains (ascii "X: v\n") lineTerminator = false ∧
    ParseRequest (ascii "GET / HTTP/1.1\r\nX: v\n\r\n\r\n") =
      some { Method := ascii "GET", Path := ascii "/", Version := ascii "HTTP/1.1",
             Headers := [(ascii "X", ascii "v")], Body := [] } ∧
    (ascii "v" : Str) ≠ ascii "v\n" ∧
    strings.TrimRight (ascii "GET / HTTP/1.1\r\nX: v\n\r\n\r\n") headerTerminator =
      ascii "GET / HTTP/1.1\r\nX: v" := by decide

/-- C4 (evaluation at the failing input): the header line `garbage` does not
split on `: ` into two tokens; `parseHeader` returns the pair of empty
strings and `ParseRequest` stores it, so the header map holds the entry with
empty key and empty value, while the same request without the line has an
empty header map.  The same happens for a line with two `: `.  A line behind
the malformed one is still decoded. -/
theorem C4_malformed_header_line_stored :
    parseHeader (ascii "garbage") = ([], []) ∧
    parseHeader (ascii "A: b: c") = ([], []) ∧
    ParseRequest (ascii "GET / HTTP/1.1\r\ngarbage\r\n\r\n") =
      some { Method := ascii "GET", Path := ascii "/", Version := ascii "HTTP/1.1",
             Headers := [([], [])], Body := [] } ∧
    ParseRequest (ascii "GET / HTTP/1.1\r\n\r\n") =
      some { Method := ascii "GET", Path := ascii "/", Version := ascii "HTTP/1.1",
             Headers := [], Body := [] } ∧
    ParseRequest (ascii "GET / HTTP/1.1\r\nA: b: c\r\nB: c\r\n\r\n") =
      some { Method := ascii "GET", Path := ascii "/", Version := ascii "HTTP/1.1",
             Headers := [([], []), (ascii "B", ascii "c")], Body := [] } ∧
    ParseRequest (ascii "GET / HTTP/1.1\r\nB: c\r\n\r\n") =
      some { Method := ascii "GET", Path := ascii "/", Version := ascii "HTTP/1.1",
             Headers := [(ascii "B", ascii "c")], Body := [] } := by decide

/-- C5 (evaluation at the failing input): the header lines `A: 1` and `A: 2\n`
are both well-formed with key `A`, and the value of the last one is `2\n`;
the decoded value of `A` is `2`.  (The example of the specification,
`A: 1\r\nA: 2\r\n\r\n`, does give `2`.)  With the empty key, a later
malformed line overwrites the value: the lines `: x`, `: y`, `bad` give the
empty value for the empty key, not `y`. -/
theorem C5_last_value_not_kept :
    strings.Split (ascii "A: 1") (ascii ": ") = [ascii "A", ascii "1"] ∧
    strings.Split (ascii "A: 2\n") (ascii ": ") = [ascii "A", ascii "2\n"] ∧
    (ParseRequest (ascii "GET / HTTP/1.1\r\nA: 1\r\nA: 2\n\r\n\r\n")).map
      (fun r => r.Headers.get (ascii "A")) = some (some (ascii "2")) ∧
    (ParseRequest (ascii "A: 1\r\nA: 2\r\n\r\n")).map
      (fun r => r.Headers.get (ascii "A")) = some (some (ascii "2")) ∧
    strings.Split (ascii ": x") (ascii ": ") = [[], ascii "x"] ∧
    strings.Split (ascii ": y") (ascii ": ") = [[], ascii "y"] ∧
    (ParseRequest (ascii "GET / HTTP/1.1\r\n: x\r\n: y\r\nbad\r\n\r\n")).map
      (fun r => r.Headers.get []) = some (some []) := by decide

/-! ## The header map -/

theorem StrMap.get_set_self (m : StrMap) (k v : Str) : (m.set k v).get k = some v := by
  induction m with
  | nil => simp [StrMap.set, StrMap.get]
  | cons e t ih =>
    obtain ⟨k1, v1⟩ := e
    by_cases h : k1 = k
    · simp [StrMap.set, StrMap.get, h]
    · simp [StrMap.set, StrMap.get, h, ih]

theorem StrMap.get_set_other (m : StrMap) (k v k2 : Str) (hne : k2 ≠ k) :
    (m.set k v).get k2 = m.get k2 := by
  induction m with
  | nil => simp [StrMap.set, StrMap.get, Ne.symm hne]
  | cons e t ih =>
    obtain ⟨k1, v1⟩ := e
    by_cases h : k1 = k
    · subst h
      simp [StrMap.set, StrMap.get, Ne.symm hne]
    · by_cases h2 : k1 = k2
      · subst h2
        simp [StrMap.set, StrMap.get, h]
      · simp [StrMap.set, StrMap.get, h, h2, ih]

/-- The keys of the map are kept distinct by `set`. -/
theorem StrMap.set_nodup (m : StrMap) (k v : Str) (h : (m.map Prod.fst).Nodup) :
    ((m.set k v).map Prod.fst).Nodup := by
  have hkeys : ∀ (m : StrMap) (x : Str), x ∈ (m.set k v).map Prod.fst →
      x = k ∨ x ∈ m.map Prod.fst := by
    intro m
    induction m with
    | nil => intro x hx; simpa [StrMap.set] using hx
    | cons e t ih =>
      obtain ⟨k1, v1⟩ := e
      intro x hx
      by_cases h1 : k1 = k
      · simp only [StrMap.set, h1, if_true, List.map_cons, List.mem_cons] at hx ⊢
        rcases hx with hx | hx
        · left; exact hx
        · right; right; exact hx
      · simp only [StrMap.set, h1, if_false, List.map_cons, List.mem_cons] at hx ⊢
        rcases hx with hx | hx
        · right; left; exact hx
        · rcases ih x hx with h2 | h2
          · left; exact h2
          · right; right; exact h2
  induction m with
  | nil => simp [StrMap.set]
  | cons e t ih =>
    obtain ⟨k1, v1⟩ := e
    simp only [List.map_cons, List.nodup_cons] at h
    by_cases h1 : k1 = k
    · subst h1
      simpa [StrMap.set] using h
    · simp only [StrMap.set, h1, if_false, List.map_cons, List.nodup_cons]
      refine ⟨?_, ih h.2⟩
      intro hmem
      rcases hkeys t k1 hmem with h2 | h2
      · exact h1 h2
      · exact h.1 h2

/-- Last write wins: after the loop over the header lines, the value under a
key is the value of the last line that `parseHeader` gives that key, and a
key that no line gives is absent. -/
theorem foldl_set_get (lines : List Str) (m : StrMap) (k : Str) :
    (lines.foldl (fun h l => h.set (parseHeader l).1 (parseHeader l).2) m).get k =
      match lines.reverse.find? (fun l => decide ((parseHeader l).1 = k)) with
      | some l => some (parseHeader l).2
      | none => m.get k := by
  induction lines generalizing m with
  | nil => rfl
  | cons l ls ih =>
    rw [List.foldl_cons, ih, List.reverse_cons, List.find?_append]
    cases hf : ls.reverse.find? (fun l => decide ((parseHeader l).1 = k)) with
    | some l2 => rfl
    | none =>
      by_cases hk : (parseHeader l).1 = k
      · have h1 : List.find? (fun l => decide ((parseHeader l).1 = k)) [l] = some l := by
          simp [List.find?, hk]
        simp only [Option.none_or, h1]
        rw [← hk, StrMap.get_set_self]
      · have h1 : List.find? (fun l => decide ((parseHeader l).1 = k)) [l] = none := by
          simp [List.find?, hk]
        simp only [Option.none_or, h1]
        rw [StrMap.get_set_other _ _ _ _ (Ne.symm hk)]

theorem headersOf_get (lines : List Str) (k : Str) :
    (headersOf lines).get k =
      (lines.reverse.find? (fun l => decide ((parseHeader l).1 = k))).map
        (fun l => (parseHeader l).2) := by
  unfold headersOf
  rw [foldl_set_get]
  cases lines.reverse.find? (fun l => decide ((parseHeader l).1 = k)) <;> rfl

/-! ## Well-formed requests -/

theorem wire_eq_section (l0 : Str) (hs : List Str) (body : Str) :
    l0 ++ lineTerminator ++ (hs.map (fun h => h ++ lineTerminator)).flatten ++ lineTerminator
        ++ body =
      sectionOf l0 hs ++ headerTerminator ++ body := by
  induction hs generalizing l0 with
  | nil =>
    have : headerTerminator = lineTerminator ++ lineTerminator := by decide
    simp [sectionOf, this]
  | cons h hs ih =>
    have := ih h
    simp only [List.map_cons, List.flatten_cons, sectionOf, List.append_assoc] at this ⊢
    rw [this]

theorem sectionOf_ne_nil (l0 : Str) (hs : List Str) (h0 : l0 ≠ []) : sectionOf l0 hs ≠ [] := by
  cases hs with
  | nil => exact h0
  | cons h hs => simp [sectionOf, h0]

theorem sectionOf_head (l0 : Str) (hs : List Str) (h0 : l0 ≠ []) :
    (sectionOf l0 hs).head? = l0.head? := by
  cases hs with
  | nil => rfl
  | cons h hs =>
    cases l0 with
    | nil => exact absurd rfl h0
    | cons c cs => rfl

/-- Behind a line end that is not followed by a second one, the search for
the terminator goes on two bytes later. -/
theorem indexOf_terminator_skip (z : Str) (hz : ¬ [13, 10] <+: z) :
    indexOf headerTerminator (13 :: 10 :: z) = (indexOf headerTerminator z).map (· + 2) := by
  have h0 : List.isPrefixOf headerTerminator (13 :: 10 :: z) = false := by
    rw [headerTerminator_eq]
    cases hp : List.isPrefixOf [13, 10, 13, 10] (13 :: 10 :: z) with
    | false => rfl
    | true =>
      exfalso
      apply hz
      have := List.isPrefixOf_iff_prefix.mp hp
      obtain ⟨t, ht⟩ := this
      exact ⟨t, by simpa using ht⟩
  have h1 : List.isPrefixOf headerTerminator (10 :: z) = false := by
    rw [headerTerminator_eq]
    simp [List.isPrefixOf]
  rw [indexOf_cons, h0, indexOf_cons, h1]
  cases indexOf headerTerminator z <;> simp

theorem not_prefix_of_free (h w : Str) (hne : h ≠ []) (hfree : indexOf [13, 10] h = none)
    (hw : w.head? ≠ some 10) : ¬ [13, 10] <+: h ++ w := by
  intro hp
  have h0 : indexOf [13, 10] (h ++ w) = some 0 := by
    rw [indexOf_eq_some_iff]
    exact ⟨by simpa using hp, Nat.zero_le _, fun j hj => absurd hj (Nat.not_lt_zero j)⟩
  rw [indexOf_append_free 13 10 [] h w hfree (Or.inr hw)] at h0
  cases hx : indexOf [13, 10] w with
  | none => rw [hx] at h0; simp at h0
  | some k =>
    rw [hx] at h0
    simp only [Option.map_some', Option.some.injEq] at h0
    have : h.length = 0 := by omega
    exact hne (List.length_eq_zero.mp this)

/-- In a section of non-empty lines without line ends, followed by the
terminator, the terminator is not found before the end of the section. -/
theorem indexOf_terminator_sectionOf (l0 : Str) (hs : List Str) (body : Str)
    (hf0 : indexOf [13, 10] l0 = none)
    (hf : ∀ h ∈ hs, indexOf [13, 10] h = none ∧ h ≠ []) :
    indexOf headerTerminator (sectionOf l0 hs ++ headerTerminator ++ body) =
      some (sectionOf l0 hs).length := by
  induction hs generalizing l0 with
  | nil => exact indexOf_terminator_of_free l0 body hf0
  | cons h hs ih =>
    have hh := hf h (by simp)
    have ih2 := ih h hh.1 (fun x hx => hf x (by simp [hx]))
    have h1 : headerTerminator = 13 :: 10 :: [13, 10] := headerTerminator_eq
    have hw : (sectionOf h hs ++ headerTerminator ++ body) =
        h ++ ((sectionOf h hs).drop h.length ++ headerTerminator ++ body) ∧
        ((sectionOf h hs).drop h.length ++ headerTerminator ++ body).head? ≠ some 10 := by
      cases hs with
      | nil => simp [sectionOf, headerTerminator_eq]
      | cons h2 hs2 => simp [sectionOf, lineTerminator_eq]
    have hnp : ¬ [13, 10] <+: sectionOf h hs ++ headerTerminator ++ body := by
      rw [hw.1]
      exact not_prefix_of_free h _ hh.2 hh.1 hw.2
    simp only [sectionOf, List.append_assoc]
    rw [h1, indexOf_append_free 13 10 [13, 10] l0 _ hf0 (Or.inr (by simp [lineTerminator_eq])),
      ← h1, lineTerminator_eq]
    simp only [List.cons_append, List.nil_append]
    rw [indexOf_terminator_skip _ (by simpa [List.append_assoc] using hnp)]
    rw [List.append_assoc] at ih2
    rw [ih2]
    simp only [Option.map_some', List.length_append, List.length_cons, List.length_nil,
      Option.some.injEq]
    omega

theorem Split_sectionOf (l0 : Str) (hs : List Str) (hf0 : indexOf [13, 10] l0 = none)
    (hf : ∀ h ∈ hs, indexOf [13, 10] h = none) :
    strings.Split (sectionOf l0 hs) lineTerminator = l0 :: hs := by
  induction hs generalizing l0 with
  | nil => exact Split_of_none _ _ hf0
  | cons h hs ih =>
    rw [sectionOf, lineTerminator_eq, Split_append_two 13 10 (by decide) _ _ hf0]
    have := ih h (hf h (by simp)) (fun x hx => hf x (by simp [hx]))
    rw [lineTerminator_eq] at this
    rw [this]

theorem TrimRight_sectionOf (l0 : Str) (hs : List Str)
    (hne : (l0 :: hs).getLast (by simp) ≠ [])
    (hclean : strings.TrimRight ((l0 :: hs).getLast (by simp)) headerTerminator =
      (l0 :: hs).getLast (by simp)) :
    strings.TrimRight (sectionOf l0 hs) headerTerminator = sectionOf l0 hs ∧
    sectionOf l0 hs ≠ [] := by
  induction hs generalizing l0 with
  | nil => exact ⟨by simpa using hclean, by simpa using hne⟩
  | cons h hs ih =>
    have hl : (l0 :: h :: hs).getLast (by simp) = (h :: hs).getLast (by simp) := by
      simp [List.getLast_cons]
    rw [hl] at hne hclean
    obtain ⟨h1, h2⟩ := ih h hne hclean
    refine ⟨?_, by simp [sectionOf, lineTerminator_eq]⟩
    rw [sectionOf, TrimRight_append, h1, if_neg h2]

theorem Split_length_nil (sep : Str) : (strings.Split [] sep).length = 1 := by
  simp [strings.Split, strings.genSplit]

theorem parseHeader_of_length_eq (line : Str)
    (h : (strings.Split line (ascii ": ")).length = 2) :
    strings.Split line (ascii ": ") = [(parseHeader line).1, (parseHeader line).2] := by
  unfold parseHeader
  rcases hs : strings.Split line (ascii ": ") with _ | ⟨a, _ | ⟨b, _ | ⟨c, l⟩⟩⟩
  · rw [hs] at h; simp at h
  · rw [hs] at h; simp at h
  · rfl
  · rw [hs] at h; simp at h

/-- The claim C1 outside the defect: a buffer made of a request line of three
tokens, header lines of two tokens each, the blank line and a body, where no
line holds a line end and the last line does not end in `\r` or `\n`, is
decoded into the three tokens, the map built from the pairs of the header
lines in order, and the body. -/
theorem wellformed_request_decoded (requestLine : Str) (headerLines : List Str) (body : Str)
    (h3 : (strings.Split requestLine (ascii " ")).length = 3)
    (h2 : ∀ h ∈ headerLines, (strings.Split h (ascii ": ")).length = 2)
    (hf0 : strings.Contains requestLine lineTerminator = false)
    (hf : ∀ h ∈ headerLines, strings.Contains h lineTerminator = false)
    (hclean : strings.TrimRight ((requestLine :: headerLines).getLast (by simp))
        headerTerminator = (requestLine :: headerLines).getLast (by simp)) :
    ∃ (r : Request) (pairs : List (Str × Str)),
      ParseRequest (requestLine ++ lineTerminator
        ++ (headerLines.map (fun h => h ++ lineTerminator)).flatten ++ lineTerminator ++ body)
        = some r ∧
      strings.Split requestLine (ascii " ") = [r.Method, r.Path, r.Version] ∧
      headerLines.map (fun h => strings.Split h (ascii ": ")) =
        pairs.map (fun p => [p.1, p.2]) ∧
      r.Headers = pairs.foldl (fun m p => StrMap.set m p.1 p.2) [] ∧
      r.Body = body := by
  have hfree0 : indexOf [13, 10] requestLine = none := (Contains_eq_false_iff _ _).mp hf0
  have hfree : ∀ h ∈ headerLines, indexOf [13, 10] h = none :=
    fun h hh => (Contains_eq_false_iff _ _).mp (hf h hh)
  have hne0 : requestLine ≠ [] := by
    intro h; rw [h, Split_length_nil] at h3; omega
  have hne : ∀ h ∈ headerLines, h ≠ [] := by
    intro h hh hnil
    have := h2 h hh
    rw [hnil, Split_length_nil] at this
    omega
  have hlast : (requestLine :: headerLines).getLast (by simp) ≠ [] := by
    have hmem := List.getLast_mem (l := requestLine :: headerLines) (by simp)
    rcases List.mem_cons.mp hmem with hm | hm
    · rw [hm]; exact hne0
    · exact hne _ hm
  refine ⟨decodeLines (requestLine :: headerLines) body, headerLines.map parseHeader,
    ?_, ?_, ?_, ?_, ?_⟩
  · rw [wire_eq_section, ParseRequest_of_section _ _
      (indexOf_terminator_sectionOf _ _ _ hfree0 (fun h hh => ⟨hfree h hh, hne h hh⟩)),
      (TrimRight_sectionOf _ _ hlast hclean).1, Split_sectionOf _ _ hfree0 hfree]
  · exact parseFirstLine_of_length_eq _ h3
  · rw [List.map_map]
    apply List.map_congr_left
    intro h hh
    exact parseHeader_of_length_eq h (h2 h hh)
  · simp only [decodeLines, headersOf, List.foldl_map]
  · rfl

theorem wellformed_request_decoded_example :
    ∃ (r : Request) (pairs : List (Str × Str)),
      ParseRequest (ascii "GET / HTTP/1.1" ++ lineTerminator
        ++ ([ascii "A: b", ascii "C: d"].map (fun h => h ++ lineTerminator)).flatten
        ++ lineTerminator ++ ascii "xyz") = some r ∧
      strings.Split (ascii "GET / HTTP/1.1") (ascii " ") = [r.Method, r.Path, r.Version] ∧
      [ascii "A: b", ascii "C: d"].map (fun h => strings.Split h (ascii ": ")) =
        pairs.map (fun p => [p.1, p.2]) ∧
      r.Headers = pairs.foldl (fun m p => StrMap.set m p.1 p.2) [] ∧
      r.Body = ascii "xyz" :=
  wellformed_request_decoded (ascii "GET / HTTP/1.1") [ascii "A: b", ascii "C: d"] (ascii "xyz")
    (by decide) (by decide) (by decide) (by decide) (by decide)

/-- Last write wins, on the lines that the decoder sees: in the request
decoded from a terminated buffer, the value under a key is the value of the
last header line (a line behind the first of the trimmed header section) to
which `parseHeader` gives that key. -/
theorem ParseRequest_headers_last_wins (data : Str) (i : Nat)
    (h : indexOf headerTerminator data = some i) :
    ∃ r, ParseRequest data = some r ∧
      ∀ k, r.Headers.get k =
        ((strings.Split (strings.TrimRight (data.take i) headerTerminator)
            lineTerminator).tail.reverse.find? (fun l => decide ((parseHeader l).1 = k))).map
          (fun l => (parseHeader l).2) := by
  refine ⟨_, ParseRequest_of_index h, ?_⟩
  intro k
  rcases hs : strings.Split (strings.TrimRight (data.take i) headerTerminator) lineTerminator
    with _ | ⟨l0, rest⟩
  · exact absurd hs (Split_ne_nil _ _)
  · simp only [decodeLines, List.tail_cons]
    exact headersOf_get rest k

/-- A malformed header line changes the header map under the empty key only:
under every other key the map is the one built without the line. -/
theorem headersOf_get_skip_malformed (pre post : List Str) (bad : Str) (k : Str)
    (hbad : (strings.Split bad (ascii ": ")).length ≠ 2) (hk : k ≠ []) :
    (headersOf (pre ++ bad :: post)).get k = (headersOf (pre ++ post)).get k := by
  have hp : parseHeader bad = ([], []) := by
    unfold parseHeader
    rcases hs : strings.Split bad (ascii ": ") with _ | ⟨a, _ | ⟨b, _ | ⟨c, l⟩⟩⟩
    · rfl
    · rfl
    · rw [hs] at hbad; simp at hbad
    · rfl
  rw [headersOf_get, headersOf_get]
  simp only [List.reverse_append, List.reverse_cons, List.append_assoc, List.find?_append,
    List.singleton_append, List.find?_cons, hp, Ne.symm hk, decide_False]

/-- A malformed header line always leaves the entry with empty key and empty
value behind, unless a later line overwrites it. -/
theorem headersOf_get_malformed_last (pre : List Str) (bad : Str)
    (hbad : (strings.Split bad (ascii ": ")).length ≠ 2) :
    (headersOf (pre ++ [bad])).get [] = some [] := by
  have hp : parseHeader bad = ([], []) := by
    unfold parseHeader
    rcases hs : strings.Split bad (ascii ": ") with _ | ⟨a, _ | ⟨b, _ | ⟨c, l⟩⟩⟩
    · rfl
    · rfl
    · rw [hs] at hbad; simp at hbad
    · rfl
  rw [headersOf_get]
  simp [hp]

/-- The decimal text that `strconv.Itoa` gives, on the status codes of the
program and on a negative number. -/
theorem Itoa_examples :
    strconv.Itoa 200 = ascii "200" ∧ strconv.Itoa 404 = ascii "404" ∧
    strconv.Itoa 201 = ascii "201" ∧ strconv.Itoa 0 = ascii "0" ∧
    strconv.Itoa (-7) = ascii "-7" ∧ strconv.Itoa 1024 = ascii "1024" := by decide

/-! ## C11: the root route through the whole pipeline -/

theorem indexOf_none_of_not_mem (x : Byte) (p s : Str) (h : x ∉ s) :
    indexOf (x :: p) s = none := by
  rw [indexOf_eq_none_iff]
  intro j hj
  apply h
  have hx : x ∈ s.drop j := hj.subset (by simp)
  exact List.mem_of_mem_drop hx

theorem TrimRight_of_forall_not_mem (s c : Str) (h : ∀ b ∈ s, b ∉ c) :
    strings.TrimRight s c = s := by
  unfold strings.TrimRight
  rw [List.rdropWhile_eq_self_iff]
  intro hl
  have := h _ (List.getLast_mem hl)
  simpa using this

/-- The request line `m / v` is decoded into its three tokens when `m` and
`v` hold no space. -/
theorem parseFirstLine_root (m v : Str) (hm : (32 : Byte) ∉ m) (hv : (32 : Byte) ∉ v) :
    parseFirstLine (m ++ ascii " / " ++ v) = (m, ascii "/", v, none) := by
  have hshape : m ++ ascii " / " ++ v = m ++ [32] ++ (ascii "/" ++ [32] ++ v) := by
    have e : ascii " / " = [32] ++ ascii "/" ++ [32] := by decide
    rw [e]; simp
  unfold parseFirstLine
  rw [ascii_space, hshape, Split_append_one 32 _ _ hm,
    Split_append_one 32 (ascii "/") v (by decide : (32 : Byte) ∉ ascii "/"),
    Split_of_none _ _ ((indexOf_one_none_iff 32 _).mpr hv)]

/-- Decoding of `m / v` followed by the blank line. -/
theorem ParseRequest_root (m v : Str)
    (hm : ∀ b ∈ m, b ≠ 32 ∧ b ≠ 13 ∧ b ≠ 10) (hv : ∀ b ∈ v, b ≠ 32 ∧ b ≠ 13 ∧ b ≠ 10) :
    ParseRequest (m ++ ascii " / " ++ v ++ ascii "\r\n\r\n") =
      some { Method := m, Path := ascii "/", Version := v, Headers := [], Body := [] } := by
  have h13 : (13 : Byte) ∉ m ++ ascii " / " ++ v := by
    intro hmem
    rcases List.mem_append.mp hmem with h1 | h1
    · rcases List.mem_append.mp h1 with h2 | h2
      · exact (hm _ h2).2.1 rfl
      · exact absurd h2 (by decide)
    · exact (hv _ h1).2.1 rfl
  have hfree : indexOf [13, 10] (m ++ ascii " / " ++ v) = none :=
    indexOf_none_of_not_mem 13 [10] _ h13
  have htrim : strings.TrimRight (m ++ ascii " / " ++ v) headerTerminator =
      m ++ ascii " / " ++ v := by
    rw [TrimRight_append]
    have hvv : strings.TrimRight v headerTerminator = v := by
      apply TrimRight_of_forall_not_mem
      intro b hb hc
      have := hv b hb
      rw [headerTerminator_eq] at hc
      simp only [List.mem_cons, List.mem_singleton, List.not_mem_nil, or_false] at hc
      rcases hc with hc | hc | hc | hc
      · exact this.2.1 hc
      · exact this.2.2 hc
      · exact this.2.1 hc
      · exact this.2.2 hc
    rw [hvv]
    by_cases hnil : v = []
    · subst hnil
      rw [if_pos rfl, List.append_nil]
      have e : ascii " / " = ascii " /" ++ [32] := by decide
      rw [e, ← List.append_assoc]
      exact TrimRight_concat_of_not_mem _ headerTerminator 32 (by decide)
    · rw [if_neg hnil]
  have hdata : m ++ ascii " / " ++ v ++ ascii "\r\n\r\n" =
      (m ++ ascii " / " ++ v) ++ headerTerminator ++ [] := by
    have e : ascii "\r\n\r\n" = headerTerminator := rfl
    rw [e]; simp
  rw [hdata, ParseRequest_of_section _ _ (indexOf_terminator_of_free _ _ hfree), htrim,
    lineTerminator_eq, Split_of_none _ _ hfree]
  have h32m : (32 : Byte) ∉ m := fun h => (hm _ h).1 rfl
  have h32v : (32 : Byte) ∉ v := fun h => (hv _ h).1 rfl
  simp only [decodeLines, parseFirstLine_root m v h32m h32v, headersOf, List.foldl_nil]

/-- The root route: what `CreateResponse` returns for the path `/`. -/
theorem CreateResponse_root (directoryArg : Str) (fs : FS) (request : Request)
    (h : request.Path = ascii "/") :
    CreateResponse directoryArg fs request =
      ({ Version := request.Version, StatusCode := 200, StatusText := ascii "OK",
         Headers := [], Body := [] }, fs) := by
  unfold CreateResponse
  simp only [h, if_true, Response.SetStatusOK]

/-- C11: for every method token `m` and version token `v` without space,
carriage return and line feed, the handler answers the buffer
`m / v\r\n\r\n` with exactly `v 200 OK\r\n\r\n` (status line, no header, blank
line, empty body), whatever the configured directory, the file system and
the order in which the encoder visits the (empty) header map; the decoded
request has method `m`, path `/` and version `v`, and the response carries the
version of the request. -/
theorem C11_root_pipeline (directoryArg : Str) (fs : FS) (order : Response → List (Str × Str))
    (m v : Str) (horder : ∀ r, (order r).Perm r.Headers)
    (hm : ∀ b ∈ m, b ≠ 32 ∧ b ≠ 13 ∧ b ≠ 10) (hv : ∀ b ∈ v, b ≠ 32 ∧ b ≠ 13 ∧ b ≠ 10) :
    ParseRequest (m ++ ascii " / " ++ v ++ ascii "\r\n\r\n") =
      some { Method := m, Path := ascii "/", Version := v, Headers := [], Body := [] } ∧
    CreateResponse directoryArg fs
        { Method := m, Path := ascii "/", Version := v, Headers := [], Body := [] } =
      ({ Version := v, StatusCode := 200, StatusText := ascii "OK", Headers := [], Body := [] },
        fs) ∧
    handleConnection directoryArg fs order (m ++ ascii " / " ++ v ++ ascii "\r\n\r\n") =
      some (v ++ ascii " 200 OK\r\n\r\n", fs) := by
  refine ⟨ParseRequest_root m v hm hv, CreateResponse_root _ _ _ rfl, ?_⟩
  unfold handleConnection
  rw [ParseRequest_root m v hm hv]
  have hc := CreateResponse_root directoryArg fs (⟨m, ascii "/", v, [], []⟩ : Request) rfl
  simp only [hc]
  have ho := horder (⟨v, 200, ascii "OK", [], []⟩ : Response)
  rw [List.perm_nil.mp ho, Encode_eq]
  have e1 : strconv.Itoa 200 = ascii "200" := by decide
  have e2 : ascii " 200 OK\r\n\r\n" = [32] ++ ascii "200" ++ [32] ++ ascii "OK" ++ [13, 10]
      ++ [13, 10] := by decide
  simp [statusLine, e1, e2]

theorem C11_root_pipeline_witness :
    (∀ r : Response, (r.Headers).Perm r.Headers) ∧
    (∀ b ∈ ascii "GET", b ≠ 32 ∧ b ≠ 13 ∧ b ≠ 10) ∧
    (∀ b ∈ ascii "HTTP/1.1", b ≠ 32 ∧ b ≠ 13 ∧ b ≠ 10) ∧
    handleConnection [] ⟨[], []⟩ (fun r => r.Headers)
        (ascii "GET" ++ ascii " / " ++ ascii "HTTP/1.1" ++ ascii "\r\n\r\n") =
      some (ascii "HTTP/1.1" ++ ascii " 200 OK\r\n\r\n", ⟨[], []⟩) :=
  ⟨fun _ => List.Perm.refl _, by decide, by decide,
    (C11_root_pipeline [] ⟨[], []⟩ (fun r => r.Headers) (ascii "GET") (ascii "HTTP/1.1")
      (fun _ => List.Perm.refl _) (by decide) (by decide)).2.2⟩

/-- Scenario 1 of the specification, evaluated: the bytes written for
`GET / HTTP/1.1`. -/
theorem scenario_root :
    handleConnection [] ⟨[], []⟩ (fun r => r.Headers) (ascii "GET / HTTP/1.1\r\n\r\n") =
      some (ascii "HTTP/1.1 200 OK\r\n\r\n", ⟨[], []⟩) := by decide

/-! ## C12: the user-agent route -/

theorem user_agent_not_echo :
    strings.Contains (ascii "/user-agent") (ascii "/echo/") = false := by decide

/-- The user-agent route: what `CreateResponse` returns for the path
`/user-agent`. -/
theorem CreateResponse_user_agent (directoryArg : Str) (fs : FS) (request : Request)
    (h : request.Path = ascii "/user-agent") :
    CreateResponse directoryArg fs request =
      ({ Version := request.Version, StatusCode := 200, StatusText := ascii "OK",
         Headers := [(ascii "Content-Type", ascii "text/plain"),
           (ascii "Content-Length",
             strconv.Itoa ((request.Headers.get (ascii "User-Agent")).getD []).length)],
         Body := (request.Headers.get (ascii "User-Agent")).getD [] }, fs) := by
  have hroot : ¬ (ascii "/user-agent" = ascii "/") := by decide
  have hne : ¬ (ascii "Content-Type" = ascii "Content-Length") := by decide
  unfold CreateResponse
  simp only [h, hroot, user_agent_not_echo, if_false, if_true, Response.SetStatusOK, StrMap.set,
    hne, Bool.false_eq_true]

/-- C12: for every request with path `/user-agent`, `CreateResponse` returns
status 200 `OK`, `Content-Type: text/plain`, as body the value stored under
the exact key `User-Agent` in the headers of the request, the empty body when
the key is absent, and `Content-Length` the decimal length of the body; the
file system is left alone. -/
theorem C12_user_agent_route (directoryArg : Str) (fs : FS) (request : Request)
    (h : request.Path = ascii "/user-agent") :
    (CreateResponse directoryArg fs request).1.StatusCode = 200 ∧
    (CreateResponse directoryArg fs request).1.StatusText = ascii "OK" ∧
    (CreateResponse directoryArg fs request).1.Headers.get (ascii "Content-Type") =
      some (ascii "text/plain") ∧
    (∀ v, request.Headers.get (ascii "User-Agent") = some v →
      (CreateResponse directoryArg fs request).1.Body = v) ∧
    (request.Headers.get (ascii "User-Agent") = none →
      (CreateResponse directoryArg fs request).1.Body = []) ∧
    (CreateResponse directoryArg fs request).1.Headers.get (ascii "Content-Length") =
      some (strconv.Itoa (CreateResponse directoryArg fs request).1.Body.length) ∧
    (CreateResponse directoryArg fs request).2 = fs := by
  have hne : ¬ (ascii "Content-Type" = ascii "Content-Length") := by decide
  rw [CreateResponse_user_agent directoryArg fs request h]
  refine ⟨rfl, rfl, by simp [StrMap.get], ?_, ?_, by simp [StrMap.get, hne], rfl⟩
  · intro v hv; simp [hv]
  · intro hv; simp [hv]

theorem C12_user_agent_route_witness :
    lowerCaseAgentRequest.Path = ascii "/user-agent" ∧
    lowerCaseAgentRequest.Headers.get (ascii "User-Agent") = none ∧
    (CreateResponse [] ⟨[], []⟩ lowerCaseAgentRequest).1.StatusCode = 200 ∧
    (CreateResponse [] ⟨[], []⟩ lowerCaseAgentRequest).1.Body = [] ∧
    (CreateResponse [] ⟨[], []⟩ lowerCaseAgentRequest).1.Headers.get (ascii "Content-Length") =
      some (strconv.Itoa (CreateResponse [] ⟨[], []⟩ lowerCaseAgentRequest).1.Body.length) :=
  ⟨by decide, by decide,
    (C12_user_agent_route [] ⟨[], []⟩ lowerCaseAgentRequest (by decide)).1,
    (C12_user_agent_route [] ⟨[], []⟩ lowerCaseAgentRequest (by decide)).2.2.2.2.1 (by decide),
    (C12_user_agent_route [] ⟨[], []⟩ lowerCaseAgentRequest (by decide)).2.2.2.2.2.1⟩

/-- Scenario 3 of the specification, evaluated: decoding and dispatching
`GET /user-agent HTTP/1.1` with `User-Agent: test-client` gives the body
`test-client` and `Content-Length: 11`; with the key in lower case the body is
empty and the `Content-Length` is `0`. -/
theorem scenario_user_agent :
    (ParseRequest (ascii "GET /user-agent HTTP/1.1\r\nUser-Agent: test-client\r\n\r\n")).map
        (fun request => (CreateResponse [] ⟨[], []⟩ request).1) =
      some { Version := ascii "HTTP/1.1", StatusCode := 200, StatusText := ascii "OK",
             Headers := [(ascii "Content-Type", ascii "text/plain"),
               (ascii "Content-Length", ascii "11")],
             Body := ascii "test-client" } ∧
    (ParseRequest (ascii "GET /user-agent HTTP/1.1\r\nuser-agent: test-client\r\n\r\n")).map
        (fun request => (CreateResponse [] ⟨[], []⟩ request).1) =
      some { Version := ascii "HTTP/1.1", StatusCode := 200, StatusText := ascii "OK",
             Headers := [(ascii "Content-Type", ascii "text/plain"),
               (ascii "Content-Length", ascii "0")],
             Body := [] } := by decide

/-! ## The routes of the dispatcher -/

/-- The routes of `CreateResponse`, in the order in which they are tried, each
with the response it returns and the file system it leaves. -/
theorem CreateResponse_cases (directoryArg : Str) (fs : FS) (request : Request) :
    (request.Path = ascii "/" ∧
      CreateResponse directoryArg fs request = (bare request.Version 200 (ascii "OK"), fs)) ∨
    (request.Path ≠ ascii "/" ∧ strings.Contains request.Path (ascii "/echo/") = true ∧
      CreateResponse directoryArg fs request =
        (okWithContent request.Version (ascii "text/plain")
          (strings.TrimPrefix request.Path (ascii "/echo/")), fs)) ∨
    (request.Path ≠ ascii "/" ∧ strings.Contains request.Path (ascii "/echo/") = false ∧
      request.Path = ascii "/user-agent" ∧
      CreateResponse directoryArg fs request =
        (okWithContent request.Version (ascii "text/plain")
          ((request.Headers.get (ascii "User-Agent")).getD []), fs)) ∨
    (request.Path ≠ ascii "/" ∧ strings.Contains request.Path (ascii "/echo/") = false ∧
      request.Path ≠ ascii "/user-agent" ∧ request.Method = ascii "GET" ∧
      strings.HasPrefix request.Path (ascii "/files/") = true ∧
      fileExists fs (addressed directoryArg request.Path) = true ∧
      CreateResponse directoryArg fs request =
        (okWithContent request.Version (ascii "application/octet-stream")
          ((getFileContent fs (addressed directoryArg request.Path)).getD []), fs)) ∨
    (request.Path ≠ ascii "/" ∧ strings.Contains request.Path (ascii "/echo/") = false ∧
      request.Path ≠ ascii "/user-agent" ∧ request.Method = ascii "GET" ∧
      strings.HasPrefix request.Path (ascii "/files/") = true ∧
      fileExists fs (addressed directoryArg request.Path) = false ∧
      CreateResponse directoryArg fs request =
        (bare request.Version 404 (ascii "Not Found"), fs)) ∨
    (request.Path ≠ ascii "/" ∧ strings.Contains request.Path (ascii "/echo/") = false ∧
      request.Path ≠ ascii "/user-agent" ∧ request.Method = ascii "POST" ∧
      strings.HasPrefix request.Path (ascii "/files/") = true ∧
      CreateResponse directoryArg fs request =
        (bare request.Version 201 (ascii "Created"),
          (writeToFile fs (addressed directoryArg request.Path) request.Body).1)) ∨
    (request.Path ≠ ascii "/" ∧ strings.Contains request.Path (ascii "/echo/") = false ∧
      request.Path ≠ ascii "/user-agent" ∧
      ¬ ((request.Method = ascii "GET" ∨ request.Method = ascii "POST") ∧
          strings.HasPrefix request.Path (ascii "/files/") = true) ∧
      CreateResponse directoryArg fs request =
        (bare request.Version 404 (ascii "Not Found"), fs)) := by
  have hgp : ¬ (ascii "GET" = ascii "POST") := by decide
  have hne : ¬ (ascii "Content-Type" = ascii "Content-Length") := by decide
  by_cases h1 : request.Path = ascii "/"
  · left
    exact ⟨h1, CreateResponse_root _ _ _ h1⟩
  right
  by_cases h2 : strings.Contains request.Path (ascii "/echo/") = true
  · left
    exact ⟨h1, h2, CreateResponse_echo _ _ _ h2⟩
  right
  have h2f : strings.Contains request.Path (ascii "/echo/") = false := by simpa using h2
  by_cases h3 : request.Path = ascii "/user-agent"
  · left
    exact ⟨h1, h2f, h3, CreateResponse_user_agent _ _ _ h3⟩
  right
  by_cases h4 : request.Method = ascii "GET" ∧
      strings.HasPrefix request.Path (ascii "/files/") = true
  · by_cases h5 : fileExists fs (addressed directoryArg request.Path) = true
    · left
      refine ⟨h1, h2f, h3, h4.1, h4.2, h5, ?_⟩
      unfold addressed at h5
      unfold CreateResponse
      simp only []
      rw [if_neg h1, if_neg h2, if_neg h3, if_pos h4, if_pos h5]
      simp only [Response.SetStatusOK, StrMap.set, hne, if_false, okWithContent, addressed]
    · right; left
      refine ⟨h1, h2f, h3, h4.1, h4.2, by simpa using h5, ?_⟩
      unfold addressed at h5
      unfold CreateResponse
      simp only []
      rw [if_neg h1, if_neg h2, if_neg h3, if_pos h4, if_neg h5]
      rfl
  right; right
  by_cases h6 : request.Method = ascii "POST" ∧
      strings.HasPrefix request.Path (ascii "/files/") = true
  · left
    refine ⟨h1, h2f, h3, h6.1, h6.2, ?_⟩
    unfold CreateResponse
    simp only []
    rw [if_neg h1, if_neg h2, if_neg h3, if_neg h4, if_pos h6]
    rfl
  · right
    refine ⟨h1, h2f, h3, ?_, ?_⟩
    · rintro ⟨hm | hm, hp⟩
      · exact h4 ⟨hm, hp⟩
      · exact h6 ⟨hm, hp⟩
    · unfold CreateResponse
      simp only []
      rw [if_neg h1, if_neg h2, if_neg h3, if_neg h4, if_neg h6]
      rfl
/-! ## C13: the 404 answers -/

/-- C13: `CreateResponse` answers 404 `Not Found` exactly when (a) the path is
not `/`, does not contain `/echo/`, is not `/user-agent`, and the request is
not a GET or POST whose path starts with `/files/`, or (b) the request is a
GET whose path starts with `/files/`, no earlier route matches, and nothing
exists under the addressed path name (`os.Stat` fails); and every 404 response
has the text `Not Found`, an empty body and no header. -/
theorem C13_not_found (directoryArg : Str) (fs : FS) (request : Request) :
    (((CreateResponse directoryArg fs request).1.StatusCode = 404 ∧
        (CreateResponse directoryArg fs request).1.StatusText = ascii "Not Found") ↔
      ((request.Path ≠ ascii "/" ∧ strings.Contains request.Path (ascii "/echo/") = false ∧
          request.Path ≠ ascii "/user-agent" ∧
          ¬ ((request.Method = ascii "GET" ∨ request.Method = ascii "POST") ∧
              strings.HasPrefix request.Path (ascii "/files/") = true)) ∨
        (request.Method = ascii "GET" ∧
          strings.HasPrefix request.Path (ascii "/files/") = true ∧
          request.Path ≠ ascii "/" ∧ strings.Contains request.Path (ascii "/echo/") = false ∧
          request.Path ≠ ascii "/user-agent" ∧
          fileExists fs (filepath.Join directoryArg (filepath.Base request.Path)) = false))) ∧
    ((CreateResponse directoryArg fs request).1.StatusCode = 404 →
      (CreateResponse directoryArg fs request).1.StatusText = ascii "Not Found" ∧
      (CreateResponse directoryArg fs request).1.Body = [] ∧
      (CreateResponse directoryArg fs request).1.Headers = []) := by
  have hgp : ¬ (ascii "GET" = ascii "POST") := by decide
  rcases CreateResponse_cases directoryArg fs request with
    ⟨h1, hc⟩ | ⟨h1, h2, hc⟩ | ⟨h1, h2, h3, hc⟩ | ⟨h1, h2, h3, h4, h5, h6, hc⟩ |
    ⟨h1, h2, h3, h4, h5, h6, hc⟩ | ⟨h1, h2, h3, h4, h5, hc⟩ | ⟨h1, h2, h3, h4, hc⟩
  · rw [hc]
    refine ⟨⟨fun h => absurd h.1 (by simp [bare]), ?_⟩, fun h => absurd h (by simp [bare])⟩
    rintro (⟨h, _⟩ | ⟨_, _, h, _⟩) <;> exact absurd h1 h
  · rw [hc]
    refine ⟨⟨fun h => absurd h.1 (by simp [okWithContent]), ?_⟩,
      fun h => absurd h (by simp [okWithContent])⟩
    rintro (⟨_, h, _⟩ | ⟨_, _, _, h, _⟩) <;> rw [h2] at h <;> exact absurd h (by simp)
  · rw [hc]
    refine ⟨⟨fun h => absurd h.1 (by simp [okWithContent]), ?_⟩,
      fun h => absurd h (by simp [okWithContent])⟩
    rintro (⟨_, _, h, _⟩ | ⟨_, _, _, _, h, _⟩) <;> exact absurd h3 h
  · rw [hc]
    refine ⟨⟨fun h => absurd h.1 (by simp [okWithContent]), ?_⟩,
      fun h => absurd h (by simp [okWithContent])⟩
    rintro (⟨_, _, _, h⟩ | ⟨_, _, _, _, _, h⟩)
    · exact (h ⟨Or.inl h4, h5⟩).elim
    · unfold addressed at h6; rw [h6] at h; exact absurd h (by simp)
  · rw [hc]
    refine ⟨⟨fun _ => Or.inr ⟨h4, h5, h1, h2, h3, h6⟩, fun _ => ⟨rfl, rfl⟩⟩,
      fun _ => ⟨rfl, rfl, rfl⟩⟩
  · rw [hc]
    refine ⟨⟨fun h => absurd h.1 (by simp [bare]), ?_⟩, fun h => absurd h (by simp [bare])⟩
    rintro (⟨_, _, _, h⟩ | ⟨h, _⟩)
    · exact (h ⟨Or.inr h4, h5⟩).elim
    · rw [h4] at h; exact (hgp h.symm).elim
  · rw [hc]
    exact ⟨⟨fun _ => Or.inl ⟨h1, h2, h3, h4⟩, fun _ => ⟨rfl, rfl⟩⟩, fun _ => ⟨rfl, rfl, rfl⟩⟩

/-- C13 at the two requests of the specification: `GET /does-not-exist`, and
`GET /files/missing.txt` against an empty directory. -/
theorem C13_not_found_witness :
    (CreateResponse (ascii "/tmp/data") emptyFS
        (requestOf (ascii "GET") (ascii "/does-not-exist") [])).1.StatusCode = 404 ∧
    (CreateResponse (ascii "/tmp/data") emptyFS
        (requestOf (ascii "GET") (ascii "/files/missing.txt") [])).1.StatusCode = 404 ∧
    (CreateResponse (ascii "/tmp/data") emptyFS
        (requestOf (ascii "GET") (ascii "/files/missing.txt") [])).1.Body = [] :=
  ⟨((C13_not_found (ascii "/tmp/data") emptyFS
      (requestOf (ascii "GET") (ascii "/does-not-exist") [])).1.mpr
        (Or.inl (by decide))).1,
   ((C13_not_found (ascii "/tmp/data") emptyFS
      (requestOf (ascii "GET") (ascii "/files/missing.txt") [])).1.mpr
        (Or.inr (by decide))).1,
   ((C13_not_found (ascii "/tmp/data") emptyFS
      (requestOf (ascii "GET") (ascii "/files/missing.txt") [])).2
        (by decide)).2.1⟩

/-- Scenarios 5 and 6 of the specification, evaluated. -/
theorem scenario_not_found :
    CreateResponse (ascii "/tmp/data") emptyFS
        (requestOf (ascii "GET") (ascii "/files/missing.txt") []) =
      ({ Version := ascii "HTTP/1.1", StatusCode := 404, StatusText := ascii "Not Found",
         Headers := [], Body := [] }, emptyFS) ∧
    CreateResponse (ascii "/tmp/data") emptyFS
        (requestOf (ascii "GET") (ascii "/does-not-exist") []) =
      ({ Version := ascii "HTTP/1.1", StatusCode := 404, StatusText := ascii "Not Found",
         Headers := [], Body := [] }, emptyFS) := by decide

/-! ## C15 and C16: invariants of the response -/

/-- C15: the response of `CreateResponse` satisfies the invariant of a
response: if its body is not empty, its headers hold `Content-Length` with
the decimal length of the body. -/
theorem C15_content_length_invariant (directoryArg : Str) (fs : FS) (request : Request)
    (hbody : (CreateResponse directoryArg fs request).1.Body ≠ []) :
    (CreateResponse directoryArg fs request).1.Headers.get (ascii "Content-Length") =
      some (strconv.Itoa (CreateResponse directoryArg fs request).1.Body.length) := by
  have hne : ¬ (ascii "Content-Type" = ascii "Content-Length") := by decide
  rcases CreateResponse_cases directoryArg fs request with
    ⟨_, hc⟩ | ⟨_, _, hc⟩ | ⟨_, _, _, hc⟩ | ⟨_, _, _, _, _, _, hc⟩ |
    ⟨_, _, _, _, _, _, hc⟩ | ⟨_, _, _, _, _, hc⟩ | ⟨_, _, _, _, hc⟩
  all_goals rw [hc] at hbody ⊢
  · exact absurd rfl hbody
  · simp [okWithContent, StrMap.get, hne]
  · simp [okWithContent, StrMap.get, hne]
  · simp [okWithContent, StrMap.get, hne]
  · exact absurd rfl hbody
  · exact absurd rfl hbody
  · exact absurd rfl hbody

theorem C15_content_length_invariant_witness :
    (CreateResponse [] emptyFS (requestOf (ascii "GET") (ascii "/echo/abc") [])).1.Body ≠ [] ∧
    (CreateResponse [] emptyFS (requestOf (ascii "GET") (ascii "/echo/abc") [])).1.Headers.get
        (ascii "Content-Length") =
      some (strconv.Itoa
        (CreateResponse [] emptyFS (requestOf (ascii "GET") (ascii "/echo/abc") [])).1.Body.length) :=
  ⟨by decide,
    C15_content_length_invariant [] emptyFS (requestOf (ascii "GET") (ascii "/echo/abc") [])
      (by decide)⟩

/-- C16: the response of `CreateResponse` has one of the pairs (200, `OK`),
(404, `Not Found`), (201, `Created`) as status code and text, and the version
of the request. -/
theorem C16_status_pair (directoryArg : Str) (fs : FS) (request : Request) :
    (((CreateResponse directoryArg fs request).1.StatusCode = 200 ∧
        (CreateResponse directoryArg fs request).1.StatusText = ascii "OK") ∨
      ((CreateResponse directoryArg fs request).1.StatusCode = 404 ∧
        (CreateResponse directoryArg fs request).1.StatusText = ascii "Not Found") ∨
      ((CreateResponse directoryArg fs request).1.StatusCode = 201 ∧
        (CreateResponse directoryArg fs request).1.StatusText = ascii "Created")) ∧
    (CreateResponse directoryArg fs request).1.Version = request.Version := by
  rcases CreateResponse_cases directoryArg fs request with
    ⟨_, hc⟩ | ⟨_, _, hc⟩ | ⟨_, _, _, hc⟩ | ⟨_, _, _, _, _, _, hc⟩ |
    ⟨_, _, _, _, _, _, hc⟩ | ⟨_, _, _, _, _, hc⟩ | ⟨_, _, _, _, hc⟩
  all_goals rw [hc]
  · exact ⟨Or.inl ⟨rfl, rfl⟩, rfl⟩
  · exact ⟨Or.inl ⟨rfl, rfl⟩, rfl⟩
  · exact ⟨Or.inl ⟨rfl, rfl⟩, rfl⟩
  · exact ⟨Or.inl ⟨rfl, rfl⟩, rfl⟩
  · exact ⟨Or.inr (Or.inl ⟨rfl, rfl⟩), rfl⟩
  · exact ⟨Or.inr (Or.inr ⟨rfl, rfl⟩), rfl⟩
  · exact ⟨Or.inr (Or.inl ⟨rfl, rfl⟩), rfl⟩

/-! ## C17: the echo route comes before the file routes -/

/-- C17: when the path contains `/echo/`, `CreateResponse` takes the echo
route: two requests with that path and the same version get the same
response, whatever their methods, headers and bodies, whatever the configured
directories and the states of the file system, and the file system is
returned as it was. -/
theorem C17_echo_before_files (directoryArg directoryArg2 : Str) (fs fs2 : FS)
    (request request2 : Request)
    (h : strings.Contains request.Path (ascii "/echo/") = true)
    (hpath : request2.Path = request.Path) (hversion : request2.Version = request.Version) :
    (CreateResponse directoryArg fs request).1 =
      okWithContent request.Version (ascii "text/plain")
        (strings.TrimPrefix request.Path (ascii "/echo/")) ∧
    (CreateResponse directoryArg2 fs2 request2).1 = (CreateResponse directoryArg fs request).1 ∧
    (CreateResponse directoryArg fs request).2 = fs ∧
    (CreateResponse directoryArg2 fs2 request2).2 = fs2 := by
  have h2 : strings.Contains request2.Path (ascii "/echo/") = true := by rw [hpath]; exact h
  rw [CreateResponse_echo _ _ _ h, CreateResponse_echo _ _ _ h2, hpath, hversion]
  exact ⟨rfl, rfl, rfl, rfl⟩

theorem C17_echo_before_files_witness :
    strings.Contains (requestOf (ascii "GET") (ascii "/files/echo/x") []).Path (ascii "/echo/")
      = true ∧
    (CreateResponse (ascii "/tmp/data") oneFileFS
        (requestOf (ascii "POST") (ascii "/files/echo/x") (ascii "new"))).1 =
      (CreateResponse [] emptyFS (requestOf (ascii "GET") (ascii "/files/echo/x") [])).1 ∧
    (CreateResponse (ascii "/tmp/data") oneFileFS
        (requestOf (ascii "POST") (ascii "/files/echo/x") (ascii "new"))).2 = oneFileFS :=
  ⟨by decide,
    (C17_echo_before_files [] (ascii "/tmp/data") emptyFS oneFileFS
      (requestOf (ascii "GET") (ascii "/files/echo/x") [])
      (requestOf (ascii "POST") (ascii "/files/echo/x") (ascii "new"))
      (by decide) rfl rfl).2.1,
    (C17_echo_before_files [] (ascii "/tmp/data") emptyFS oneFileFS
      (requestOf (ascii "GET") (ascii "/files/echo/x") [])
      (requestOf (ascii "POST") (ascii "/files/echo/x") (ascii "new"))
      (by decide) rfl rfl).2.2.2⟩

/-- The requests `GET /files/echo/x` and `POST /files/echo/x`, evaluated: both
take the echo route (the body is the whole path, see C9), the file `x` is
neither served nor overwritten; without `echo/` in the path the file routes
are taken. -/
theorem echo_before_files_examples :
    CreateResponse (ascii "/tmp/data") oneFileFS
        (requestOf (ascii "GET") (ascii "/files/echo/x") []) =
      (okWithContent (ascii "HTTP/1.1") (ascii "text/plain") (ascii "/files/echo/x"),
        oneFileFS) ∧
    CreateResponse (ascii "/tmp/data") oneFileFS
        (requestOf (ascii "POST") (ascii "/files/echo/x") (ascii "new")) =
      (okWithContent (ascii "HTTP/1.1") (ascii "text/plain") (ascii "/files/echo/x"),
        oneFileFS) ∧
    CreateResponse (ascii "/tmp/data") oneFileFS
        (requestOf (ascii "GET") (ascii "/files/x") []) =
      (okWithContent (ascii "HTTP/1.1") (ascii "application/octet-stream") (ascii "old"),
        oneFileFS) ∧
    (CreateResponse (ascii "/tmp/data") oneFileFS
        (requestOf (ascii "POST") (ascii "/files/x") (ascii "new"))).2.lookup
      (ascii "/tmp/data/x") = some (Node.file (ascii "new")) := by decide

/-! ## C14: a file written and read back -/

theorem ascii_files : ascii "/files/" = [47, 102, 105, 108, 101, 115, 47] := by decide

/-- The base name of `/files/n` is `n`, for a single path segment `n`. -/
theorem Base_files (n : Str) (hn : n ≠ []) (hseg : (47 : Byte) ∉ n) :
    filepath.Base (ascii "/files/" ++ n) = n := by
  have hne : ascii "/files/" ++ n ≠ [] := by simp [hn]
  have hdrop : (ascii "/files/" ++ n).rdropWhile (fun b => b == Separator) =
      ascii "/files/" ++ n := by
    rw [List.rdropWhile_eq_self_iff]
    intro hl
    rw [List.getLast_append_of_ne_nil hn]
    intro hc
    apply hseg
    have : n.getLast hn = 47 := by simpa [Separator] using hc
    rw [← this]
    exact List.getLast_mem hn
  have htake : (ascii "/files/" ++ n).rtakeWhile (fun b => b != Separator) = n := by
    have hall : ∀ a ∈ n.reverse, (fun b : Byte => b != Separator) a = true := by
      intro a ha
      have ha2 : a ∈ n := List.mem_reverse.mp ha
      have : a ≠ 47 := fun h => hseg (h ▸ ha2)
      simpa [Separator] using this
    unfold List.rtakeWhile
    rw [List.reverse_append, List.takeWhile_append_of_pos hall, ascii_files]
    simp [Separator]
  unfold filepath.Base
  rw [if_neg hne]
  simp only [hdrop, htake, if_neg hn]

/-- A path `/files/n` with a single segment `n` matches none of the routes
before the file routes. -/
theorem files_path_routes (n : Str) (hseg : (47 : Byte) ∉ n) :
    ascii "/files/" ++ n ≠ ascii "/" ∧
    strings.Contains (ascii "/files/" ++ n) (ascii "/echo/") = false ∧
    ascii "/files/" ++ n ≠ ascii "/user-agent" ∧
    strings.HasPrefix (ascii "/files/" ++ n) (ascii "/files/") = true := by
  have hroot : ascii "/" = [47] := by decide
  have hua : ascii "/user-agent" = [47, 117, 115, 101, 114, 45, 97, 103, 101, 110, 116] := by
    decide
  have hecho : ascii "/echo/" = 47 :: 101 :: [99, 104, 111, 47] := by decide
  refine ⟨by rw [ascii_files, hroot]; simp, ?_, by rw [ascii_files, hua]; simp, ?_⟩
  · rw [Contains_eq_false_iff, hecho]
    have hsplit : ascii "/files/" ++ n = ascii "/files" ++ ([47] ++ n) := by
      have e : ascii "/files/" = ascii "/files" ++ [47] := by decide
      rw [e, List.append_assoc]
    rw [hsplit, indexOf_append_free 47 101 _ _ _ (by decide) (Or.inl (by decide))]
    have hnp : List.isPrefixOf (47 :: 101 :: [99, 104, 111, 47]) ([47] ++ n) = false := by
      cases hp : List.isPrefixOf (47 :: 101 :: [99, 104, 111, 47]) ([47] ++ n) with
      | false => rfl
      | true =>
        exfalso
        obtain ⟨t, ht⟩ := List.isPrefixOf_iff_prefix.mp hp
        apply hseg
        have h2 : ([101, 99, 104, 111, 47] : Str) ++ t = n := by simpa using ht
        rw [← h2]
        simp
    rw [show ([47] : Str) ++ n = 47 :: n from rfl, indexOf_cons]
    rw [show (47 : Byte) :: n = [47] ++ n from rfl, hnp]
    rw [indexOf_none_of_not_mem 47 _ n hseg]
    rfl
  · exact List.isPrefixOf_iff_prefix.mpr (List.prefix_append _ _)

theorem lookup_writeToFile_self (fs : FS) (p data : Str)
    (hw : (writeToFile fs p data).2 = false) :
    (writeToFile fs p data).1.lookup p = some (Node.file data) := by
  unfold writeToFile at hw ⊢
  by_cases hc : fs.canCreate p = true
  · simp [hc, FS.lookup]
  · simp [hc] at hw

theorem lookup_filter_ne (l : List (Str × Node)) (p q : Str) (hq : q ≠ p) :
    List.lookup q (l.filter (fun e => e.1 ≠ p)) = List.lookup q l := by
  induction l with
  | nil => rfl
  | cons e t ih =>
    obtain ⟨k, v⟩ := e
    by_cases hk : k = p
    · have hbeq : (q == k) = false := by rw [hk]; simpa using hq
      have hf : List.filter (fun e : Str × Node => decide (e.1 ≠ p)) ((k, v) :: t) =
          List.filter (fun e : Str × Node => decide (e.1 ≠ p)) t := by
        rw [List.filter_cons]; simp [hk]
      rw [hf, ih, List.lookup_cons, hbeq]
    · have hf : List.filter (fun e : Str × Node => decide (e.1 ≠ p)) ((k, v) :: t) =
          (k, v) :: List.filter (fun e : Str × Node => decide (e.1 ≠ p)) t := by
        rw [List.filter_cons]; simp [hk]
      rw [hf, List.lookup_cons, List.lookup_cons, ih]

theorem lookup_writeToFile_other (fs : FS) (p q data : Str) (hq : q ≠ p) :
    (writeToFile fs p data).1.lookup q = fs.lookup q := by
  unfold writeToFile
  by_cases hc : fs.canCreate p = true
  · simp only [hc, if_true, FS.lookup]
    have hbeq : (q == p) = false := by simpa using hq
    rw [List.lookup_cons, hbeq]
    exact lookup_filter_ne fs.nodes p q hq
  · simp [hc]

/-- C14: let `n` be a single path segment, `b` a body, and let the write of
`b` to the file `n` of the configured directory succeed.  `CreateResponse` on
a POST request with path `/files/n` and body `b` returns 201 `Created` without
body and header and leaves a file system in which the addressed path name
holds exactly `b` (whatever it held before) and every other path name holds
what it held; `CreateResponse` on a following GET request with the same path
returns 200 `OK`, `Content-Type: application/octet-stream`, the body `b` and
`Content-Length` the decimal length of `b`. -/
theorem C14_post_then_get (directoryArg : Str) (fs : FS) (n b : Str)
    (postRequest getRequest : Request)
    (hn : n ≠ []) (hseg : (47 : Byte) ∉ n)
    (hpm : postRequest.Method = ascii "POST") (hpp : postRequest.Path = ascii "/files/" ++ n)
    (hpb : postRequest.Body = b)
    (hgm : getRequest.Method = ascii "GET") (hgp : getRequest.Path = ascii "/files/" ++ n)
    (hw : (writeToFile fs (filepath.Join directoryArg n) b).2 = false) :
    (CreateResponse directoryArg fs postRequest).1 =
      bare postRequest.Version 201 (ascii "Created") ∧
    (CreateResponse directoryArg fs postRequest).2.lookup (filepath.Join directoryArg n) =
      some (Node.file b) ∧
    (∀ q, q ≠ filepath.Join directoryArg n →
      (CreateResponse directoryArg fs postRequest).2.lookup q = fs.lookup q) ∧
    (CreateResponse directoryArg (CreateResponse directoryArg fs postRequest).2 getRequest).1 =
      okWithContent getRequest.Version (ascii "application/octet-stream") b ∧
    (CreateResponse directoryArg (CreateResponse directoryArg fs postRequest).2 getRequest).2 =
      (CreateResponse directoryArg fs postRequest).2 := by
  obtain ⟨r1, r2, r3, r4⟩ := files_path_routes n hseg
  have hgpost : ¬ (ascii "POST" = ascii "GET") := by decide
  have haddr : ∀ path, path = ascii "/files/" ++ n →
      addressed directoryArg path = filepath.Join directoryArg n := by
    intro path hp
    rw [addressed, hp, Base_files n hn hseg]
  have hpost : CreateResponse directoryArg fs postRequest =
      (bare postRequest.Version 201 (ascii "Created"),
        (writeToFile fs (filepath.Join directoryArg n) b).1) := by
    rcases CreateResponse_cases directoryArg fs postRequest with
      ⟨h1, _⟩ | ⟨_, h2, _⟩ | ⟨_, _, h3, _⟩ | ⟨_, _, _, h4, _⟩ |
      ⟨_, _, _, h4, _⟩ | ⟨_, _, _, _, _, hc⟩ | ⟨_, _, _, h4, _⟩
    · rw [hpp] at h1; exact absurd h1 r1
    · rw [hpp, r2] at h2; exact absurd h2 (by simp)
    · rw [hpp] at h3; exact absurd h3 r3
    · rw [hpm] at h4; exact absurd h4 hgpost
    · rw [hpm] at h4; exact absurd h4 hgpost
    · rw [hc, haddr _ hpp, hpb]
    · rw [hpm, hpp] at h4; exact absurd ⟨Or.inr rfl, r4⟩ h4
  have hlook := lookup_writeToFile_self fs (filepath.Join directoryArg n) b hw
  have hget : CreateResponse directoryArg (writeToFile fs (filepath.Join directoryArg n) b).1
      getRequest =
      (okWithContent getRequest.Version (ascii "application/octet-stream") b,
        (writeToFile fs (filepath.Join directoryArg n) b).1) := by
    rcases CreateResponse_cases directoryArg
        (writeToFile fs (filepath.Join directoryArg n) b).1 getRequest with
      ⟨h1, _⟩ | ⟨_, h2, _⟩ | ⟨_, _, h3, _⟩ | ⟨_, _, _, _, _, _, hc⟩ |
      ⟨_, _, _, _, _, h6, _⟩ | ⟨_, _, _, h4, _⟩ | ⟨_, _, _, h4, _⟩
    · rw [hgp] at h1; exact absurd h1 r1
    · rw [hgp, r2] at h2; exact absurd h2 (by simp)
    · rw [hgp] at h3; exact absurd h3 r3
    · rw [hc, haddr _ hgp]
      simp [getFileContent, hlook]
    · rw [haddr _ hgp] at h6
      simp [fileExists, hlook] at h6
    · rw [hgm] at h4; exact absurd h4.symm hgpost
    · rw [hgm, hgp] at h4; exact absurd ⟨Or.inl rfl, r4⟩ h4
  rw [hpost]
  exact ⟨rfl, hlook, fun q hq => lookup_writeToFile_other fs _ q b hq,
    by rw [hget], by rw [hget]⟩

theorem C14_post_then_get_witness :
    ascii "foo.txt" ≠ [] ∧ (47 : Byte) ∉ ascii "foo.txt" ∧
    (writeToFile emptyFS (filepath.Join (ascii "/tmp/data") (ascii "foo.txt"))
      (ascii "hello")).2 = false ∧
    (CreateResponse (ascii "/tmp/data") emptyFS
        (requestOf (ascii "POST") (ascii "/files/" ++ ascii "foo.txt") (ascii "hello"))).1 =
      bare (ascii "HTTP/1.1") 201 (ascii "Created") ∧
    (CreateResponse (ascii "/tmp/data")
        (CreateResponse (ascii "/tmp/data") emptyFS
          (requestOf (ascii "POST") (ascii "/files/" ++ ascii "foo.txt") (ascii "hello"))).2
        (requestOf (ascii "GET") (ascii "/files/" ++ ascii "foo.txt") [])).1 =
      okWithContent (ascii "HTTP/1.1") (ascii "application/octet-stream") (ascii "hello") :=
  ⟨by decide, by decide, by decide,
    (C14_post_then_get (ascii "/tmp/data") emptyFS (ascii "foo.txt") (ascii "hello")
      (requestOf (ascii "POST") (ascii "/files/" ++ ascii "foo.txt") (ascii "hello"))
      (requestOf (ascii "GET") (ascii "/files/" ++ ascii "foo.txt") [])
      (by decide) (by decide) rfl rfl rfl rfl rfl (by decide)).1,
    (C14_post_then_get (ascii "/tmp/data") emptyFS (ascii "foo.txt") (ascii "hello")
      (requestOf (ascii "POST") (ascii "/files/" ++ ascii "foo.txt") (ascii "hello"))
      (requestOf (ascii "GET") (ascii "/files/" ++ ascii "foo.txt") [])
      (by decide) (by decide) rfl rfl rfl rfl rfl (by decide)).2.2.2.1⟩

/-- Scenario 4 of the specification, evaluated on the bytes of the two
requests: `POST /files/foo.txt` with body `hello` against the directory
`/tmp/data` is answered with 201 and stores the file `/tmp/data/foo.txt`; the
following `GET /files/foo.txt` is answered with 200, the body `hello` and
`Content-Length: 5`. -/
theorem scenario_post_then_get :
    handleConnection (ascii "/tmp/data") emptyFS (fun r => r.Headers)
        (ascii "POST /files/foo.txt HTTP/1.1\r\nContent-Length: 5\r\n\r\nhello") =
      some (ascii "HTTP/1.1 201 Created\r\n\r\n",
        { nodes := [(ascii "/tmp/data/foo.txt", Node.file (ascii "hello"))], denied := [] }) ∧
    handleConnection (ascii "/tmp/data")
        { nodes := [(ascii "/tmp/data/foo.txt", Node.file (ascii "hello"))], denied := [] }
        (fun r => r.Headers) (ascii "GET /files/foo.txt HTTP/1.1\r\n\r\n") =
      some (ascii ("HTTP/1.1 200 OK\r\nContent-Type: application/octet-stream\r\n" ++
          "Content-Length: 5\r\n\r\nhello"),
        { nodes := [(ascii "/tmp/data/foo.txt", Node.file (ascii "hello"))], denied := [] }) := by
  decide

/-! ## C19: the encoder output split again -/

theorem toDigitsCore_ne_cr (fuel n : Nat) (ds : List Char)
    (hds : ∀ c ∈ ds, UInt8.ofNat c.toNat ≠ 13) :
    ∀ c ∈ Nat.toDigitsCore 10 fuel n ds, UInt8.ofNat c.toNat ≠ 13 := by
  have hdigit : ∀ k, k < 10 → UInt8.ofNat (Nat.digitChar k).toNat ≠ 13 := by decide
  induction fuel generalizing n ds with
  | zero => simpa [Nat.toDigitsCore] using hds
  | succ f ih =>
    have hcons : ∀ c ∈ Nat.digitChar (n % 10) :: ds, UInt8.ofNat c.toNat ≠ 13 := by
      intro c hc
      rcases List.mem_cons.mp hc with h | h
      · rw [h]; exact hdigit _ (Nat.mod_lt _ (by decide))
      · exact hds c h
    unfold Nat.toDigitsCore
    by_cases h0 : n / 10 = 0
    · simp only [h0, if_true]; exact hcons
    · simp only [h0, if_false]; exact ih _ _ hcons

/-- The decimal text of an integer holds no carriage return. -/
theorem Itoa_no_cr (n : Int) : (13 : Byte) ∉ strconv.Itoa n := by
  have hd : ∀ m : Nat, (13 : Byte) ∉ ascii (String.mk (Nat.toDigits 10 m)) := by
    intro m hmem
    unfold ascii at hmem
    obtain ⟨c, hc, hcv⟩ := List.mem_map.mp hmem
    exact toDigitsCore_ne_cr _ _ [] (by simp) c hc hcv
  unfold strconv.Itoa
  by_cases hneg : n < 0
  · rw [if_pos hneg]
    intro hmem
    rcases List.mem_cons.mp hmem with h | h
    · exact absurd h (by decide)
    · exact hd _ h
  · rw [if_neg hneg]; exact hd _

/-- The encoder output as header section, terminator and body: the section is
the status line and the header lines without their line ends. -/
theorem Encode_eq_section (r : Response) (order : List (Str × Str)) :
    r.Encode order =
      sectionOf (r.Version ++ [32] ++ strconv.Itoa r.StatusCode ++ [32] ++ r.StatusText)
          (order.map (fun kv => kv.1 ++ [58, 32] ++ kv.2))
        ++ headerTerminator ++ r.Body := by
  have hfun : headerLine =
      ((fun h : Str => h ++ [13, 10]) ∘ fun kv : Str × Str => kv.1 ++ ([58, 32] ++ kv.2)) := by
    funext kv
    simp [headerLine]
  rw [← wire_eq_section, Encode_eq, lineTerminator_eq, List.map_map]
  simp only [statusLine, List.append_assoc]
  rw [hfun]

/-- C19: let version, status text and every header key and value of `r` hold
no carriage return and no line feed.  Then, whatever the order in which the
encoder visits the header map, the output of `Encode` holds the terminator,
its first instance is at the end of the header block, the bytes behind it are
exactly the body of `r`, and `getHeaderBytes` splits the output there:
`data[offset:]` is the body, whatever bytes the body holds. -/
theorem C19_encoded_body_recovered (r : Response) (order : List (Str × Str))
    (horder : order.Perm r.Headers)
    (hversion : (13 : Byte) ∉ r.Version ∧ (10 : Byte) ∉ r.Version)
    (htext : (13 : Byte) ∉ r.StatusText ∧ (10 : Byte) ∉ r.StatusText)
    (hheaders : ∀ kv ∈ r.Headers,
      (13 : Byte) ∉ kv.1 ∧ (10 : Byte) ∉ kv.1 ∧ (13 : Byte) ∉ kv.2 ∧ (10 : Byte) ∉ kv.2) :
    ∃ i : Nat,
      ((r.Encode order).drop i).take 4 = headerTerminator ∧
      (∀ j, j < i → ((r.Encode order).drop j).take 4 ≠ headerTerminator) ∧
      (r.Encode order).drop (i + 4) = r.Body ∧
      getHeaderBytes (r.Encode order) =
        some ((r.Encode order).take (i + 4), ((i + 4 : Nat) : Int)) ∧
      sliceFrom (r.Encode order) ((i + 4 : Nat) : Int) = some r.Body ∧
      (ParseRequest (r.Encode order)).map (fun request => request.Body) = some r.Body := by
  have hl : headerTerminator.length = 4 := by decide
  have hfree0 : indexOf [13, 10]
      (r.Version ++ [32] ++ strconv.Itoa r.StatusCode ++ [32] ++ r.StatusText) = none := by
    apply indexOf_none_of_not_mem
    simp only [List.mem_append, List.mem_singleton, not_or]
    exact ⟨⟨⟨⟨hversion.1, by decide⟩, Itoa_no_cr _⟩, by decide⟩, htext.1⟩
  have hfree : ∀ h ∈ order.map (fun kv => kv.1 ++ [58, 32] ++ kv.2),
      indexOf [13, 10] h = none ∧ h ≠ [] := by
    intro h hh
    obtain ⟨kv, hkv, rfl⟩ := List.mem_map.mp hh
    have hk := hheaders kv (horder.subset hkv)
    refine ⟨?_, by simp⟩
    apply indexOf_none_of_not_mem
    simp only [List.mem_append, List.mem_cons, List.mem_singleton, List.not_mem_nil, or_false,
      not_or]
    exact ⟨⟨hk.1, by decide, by decide⟩, hk.2.2.1⟩
  have hidx := indexOf_terminator_sectionOf _ _ r.Body hfree0 hfree
  rw [← Encode_eq_section] at hidx
  obtain ⟨hp, hle, hfirst⟩ := (indexOf_eq_some_iff _ _ _).mp hidx
  have hpre : ∀ j, headerTerminator <+: (r.Encode order).drop j ↔
      ((r.Encode order).drop j).take 4 = headerTerminator := by
    intro j
    rw [List.prefix_iff_eq_take, hl]
    exact eq_comm
  have hdrop : (r.Encode order).drop
      ((sectionOf (r.Version ++ [32] ++ strconv.Itoa r.StatusCode ++ [32] ++ r.StatusText)
        (order.map (fun kv => kv.1 ++ [58, 32] ++ kv.2))).length + 4) = r.Body := by
    conv_lhs => rw [Encode_eq_section]
    rw [← hl, ← List.length_append, List.drop_left']
    rfl
  refine ⟨_, (hpre _).mp hp, fun j hj => fun h => hfirst j hj ((hpre j).mpr h), hdrop,
    getHeaderBytes_of_index hidx, ?_, ?_⟩
  · have hb := indexOf_bound hidx
    rw [hl] at hb
    unfold sliceFrom
    rw [if_pos (by constructor <;> omega)]
    simp only [Int.toNat_ofNat, hdrop]
  · rw [ParseRequest_of_index hidx, hdrop]
    cases strings.Split (strings.TrimRight (List.take _ (r.Encode order)) headerTerminator)
      lineTerminator <;> rfl

theorem C19_encoded_body_recovered_witness :
    List.Perm [(ascii "Content-Length", ascii "9"), (ascii "Content-Type", ascii "text/plain")]
      terminatorBodyResponse.Headers ∧
    ((13 : Byte) ∉ terminatorBodyResponse.Version ∧
      (10 : Byte) ∉ terminatorBodyResponse.Version) ∧
    ((13 : Byte) ∉ terminatorBodyResponse.StatusText ∧
      (10 : Byte) ∉ terminatorBodyResponse.StatusText) ∧
    (∀ kv ∈ terminatorBodyResponse.Headers,
      (13 : Byte) ∉ kv.1 ∧ (10 : Byte) ∉ kv.1 ∧ (13 : Byte) ∉ kv.2 ∧ (10 : Byte) ∉ kv.2) ∧
    (ParseRequest (terminatorBodyResponse.Encode
        [(ascii "Content-Length", ascii "9"), (ascii "Content-Type", ascii "text/plain")])).map
      (fun request => request.Body) = some terminatorBodyResponse.Body :=
  ⟨List.Perm.swap _ _ _, by decide, by decide, by decide,
    (C19_encoded_body_recovered terminatorBodyResponse
      [(ascii "Content-Length", ascii "9"), (ascii "Content-Type", ascii "text/plain")]
      (List.Perm.swap _ _ _) (by decide) (by decide) (by decide)).elim
      (fun _ h => h.2.2.2.2.2)⟩

/-- The encoder output for a response without header and with the terminator
in the body, evaluated: the first terminator is the end of the header block
and the body comes back whole. -/
theorem encoded_body_example :
    (bare (ascii "HTTP/1.1") 200 (ascii "OK")).Encode [] = ascii "HTTP/1.1 200 OK\r\n\r\n" ∧
    getHeaderBytes (terminatorBodyResponse.Encode terminatorBodyResponse.Headers) =
      some (ascii "HTTP/1.1 200 OK\r\nContent-Type: text/plain\r\nContent-Length: 9\r\n\r\n",
        64) ∧
    sliceFrom (terminatorBodyResponse.Encode terminatorBodyResponse.Headers) 64 =
      some (ascii "\r\n\r\na\r\n\r\n") := by decide

/-! ## C20: no delimiter inside a decoded token -/

/-- What precedes the first instance of a separator holds no instance. -/
theorem indexOf_take_none {sep s : Str} {m : Nat} (hsep : sep ≠ [])
    (h : indexOf sep s = some m) : indexOf sep (s.take m) = none := by
  rw [indexOf_eq_none_iff]
  intro q hq
  obtain ⟨_, _, hfirst⟩ := (indexOf_eq_some_iff _ _ _).mp h
  have hlen := hq.length_le
  have hpos : 0 < sep.length := List.length_pos.mpr hsep
  simp only [List.length_drop, List.length_take] at hlen
  apply hfirst q (by omega)
  have : List.drop q (List.take m s) <+: List.drop q s := by
    rw [List.drop_take]
    exact List.take_prefix _ _
  exact hq.trans this

/-- A part of a string without the separator holds no separator. -/
theorem indexOf_none_of_infix {sep s p : Str} (hsep : sep ≠ []) (h : indexOf sep s = none)
    (hp : p <:+: s) : indexOf sep p = none := by
  rw [indexOf_eq_none_iff] at h ⊢
  intro j hj
  obtain ⟨a, b, hab⟩ := hp
  have hjl : j ≤ p.length := by
    by_contra hc
    rw [List.drop_eq_nil_of_le (by omega)] at hj
    exact hsep (List.prefix_nil.mp hj)
  apply h (a.length + j)
  rw [← hab, List.append_assoc, ← List.drop_drop, List.drop_left,
    List.drop_append_of_le_length hjl]
  exact hj.trans (List.prefix_append _ _)

/-- Every piece that `strings.Split` returns is a part of the string and
holds no separator. -/
theorem Split_pieces (sep : Str) (hsep : sep ≠ []) (s : Str) :
    ∀ piece ∈ strings.Split s sep, piece <:+: s ∧ indexOf sep piece = none := by
  generalize hn : s.length = n
  induction n using Nat.strong_induction_on generalizing s with
  | _ n ih =>
    subst hn
    intro piece hpiece
    rw [Split_eq _ _ hsep] at hpiece
    cases hx : indexOf sep s with
    | none =>
      rw [hx] at hpiece
      simp only [List.mem_singleton] at hpiece
      rw [hpiece]
      exact ⟨List.infix_refl _, hx⟩
    | some m =>
      rw [hx] at hpiece
      have hb := indexOf_bound hx
      have hpos : 0 < sep.length := List.length_pos.mpr hsep
      rcases List.mem_cons.mp hpiece with h | h
      · rw [h]
        exact ⟨(List.take_prefix _ _).isInfix, indexOf_take_none hsep hx⟩
      · obtain ⟨h1, h2⟩ := ih (s.drop (m + sep.length)).length (by simp; omega) _ rfl piece h
        exact ⟨h1.trans (List.drop_suffix _ _).isInfix, h2⟩

/-- The three tokens of a request line hold no space, and no line end when
the line holds none. -/
theorem parseFirstLine_tokens (line : Str) (hline : indexOf [13, 10] line = none) :
    (indexOf [32] (parseFirstLine line).1 = none ∧
      indexOf [13, 10] (parseFirstLine line).1 = none) ∧
    (indexOf [32] (parseFirstLine line).2.1 = none ∧
      indexOf [13, 10] (parseFirstLine line).2.1 = none) ∧
    (indexOf [32] (parseFirstLine line).2.2.1 = none ∧
      indexOf [13, 10] (parseFirstLine line).2.2.1 = none) := by
  have hp := Split_pieces [32] (by simp) line
  have hnil : indexOf [32] ([] : Str) = none ∧ indexOf [13, 10] ([] : Str) = none := by
    constructor <;> rfl
  unfold parseFirstLine
  rw [ascii_space]
  rcases hs : strings.Split line [32] with _ | ⟨a, _ | ⟨b, _ | ⟨c, _ | ⟨d, l⟩⟩⟩⟩
  · exact ⟨hnil, hnil, hnil⟩
  · exact ⟨hnil, hnil, hnil⟩
  · exact ⟨hnil, hnil, hnil⟩
  · rw [hs] at hp
    have ha := hp a (by simp)
    have hb := hp b (by simp)
    have hc := hp c (by simp)
    exact ⟨⟨ha.2, indexOf_none_of_infix (by simp) hline ha.1⟩,
      ⟨hb.2, indexOf_none_of_infix (by simp) hline hb.1⟩,
      ⟨hc.2, indexOf_none_of_infix (by simp) hline hc.1⟩⟩
  · exact ⟨hnil, hnil, hnil⟩

/-- Key and value of a header line hold no `: `, and no line end when the
line holds none. -/
theorem parseHeader_tokens (line : Str) (hline : indexOf [13, 10] line = none) :
    (indexOf [58, 32] (parseHeader line).1 = none ∧
      indexOf [13, 10] (parseHeader line).1 = none) ∧
    (indexOf [58, 32] (parseHeader line).2 = none ∧
      indexOf [13, 10] (parseHeader line).2 = none) := by
  have hp := Split_pieces [58, 32] (by simp) line
  have hnil : indexOf [58, 32] ([] : Str) = none ∧ indexOf [13, 10] ([] : Str) = none := by
    constructor <;> rfl
  unfold parseHeader
  rw [ascii_colon_space]
  rcases hs : strings.Split line [58, 32] with _ | ⟨a, _ | ⟨b, _ | ⟨c, l⟩⟩⟩
  · exact ⟨hnil, hnil⟩
  · exact ⟨hnil, hnil⟩
  · rw [hs] at hp
    have ha := hp a (by simp)
    have hb := hp b (by simp)
    exact ⟨⟨ha.2, indexOf_none_of_infix (by simp) hline ha.1⟩,
      ⟨hb.2, indexOf_none_of_infix (by simp) hline hb.1⟩⟩
  · exact ⟨hnil, hnil⟩

theorem StrMap.mem_set (m : StrMap) (k v : Str) (e : Str × Str)
    (h : e ∈ StrMap.set m k v) : e = (k, v) ∨ e ∈ m := by
  induction m with
  | nil => left; simpa [StrMap.set] using h
  | cons e1 t ih =>
    obtain ⟨k1, v1⟩ := e1
    by_cases h1 : k1 = k
    · simp only [StrMap.set, h1, if_true, List.mem_cons] at h
      rcases h with h | h
      · left; exact h
      · right; exact List.mem_cons_of_mem _ h
    · simp only [StrMap.set, h1, if_false, List.mem_cons] at h
      rcases h with h | h
      · right; rw [h]; exact List.mem_cons_self _ _
      · rcases ih h with h2 | h2
        · left; exact h2
        · right; exact List.mem_cons_of_mem _ h2

/-- Every entry of the header map comes from a header line. -/
theorem mem_headersOf (lines : List Str) (e : Str × Str) (h : e ∈ headersOf lines) :
    ∃ l ∈ lines, e = parseHeader l := by
  have key : ∀ (ls : List Str) (m : StrMap),
      e ∈ ls.foldl (fun h l => StrMap.set h (parseHeader l).1 (parseHeader l).2) m →
      e ∈ m ∨ ∃ l ∈ ls, e = parseHeader l := by
    intro ls
    induction ls with
    | nil => intro m hm; left; exact hm
    | cons l t ih =>
      intro m hm
      rw [List.foldl_cons] at hm
      rcases ih _ hm with h1 | ⟨l2, hl2, he⟩
      · rcases StrMap.mem_set _ _ _ _ h1 with h2 | h2
        · right; exact ⟨l, List.mem_cons_self _ _, h2⟩
        · left; exact h2
      · right; exact ⟨l2, List.mem_cons_of_mem _ hl2, he⟩
  rcases key lines [] h with h1 | h1
  · exact absurd h1 (List.not_mem_nil _)
  · exact h1

/-- C20: for every buffer that contains the terminator, `ParseRequest`
returns a request in which method, path and version hold no space and no
`\r\n`, and every key and every value of the header map holds neither `: `
nor `\r\n`. -/
theorem C20_no_delimiter_in_tokens (data : Str)
    (hterm : strings.Contains data headerTerminator = true) :
    ∃ r, ParseRequest data = some r ∧
      (strings.Contains r.Method (ascii " ") = false ∧
        strings.Contains r.Method lineTerminator = false) ∧
      (strings.Contains r.Path (ascii " ") = false ∧
        strings.Contains r.Path lineTerminator = false) ∧
      (strings.Contains r.Version (ascii " ") = false ∧
        strings.Contains r.Version lineTerminator = false) ∧
      ∀ kv ∈ r.Headers,
        (strings.Contains kv.1 (ascii ": ") = false ∧
          strings.Contains kv.1 lineTerminator = false) ∧
        (strings.Contains kv.2 (ascii ": ") = false ∧
          strings.Contains kv.2 lineTerminator = false) := by
  obtain ⟨i, hi⟩ := (Contains_eq_true_iff _ _).mp hterm
  have hlines := Split_pieces [13, 10] (by simp)
    (strings.TrimRight (data.take i) headerTerminator)
  simp only [Contains_eq_false_iff, ascii_space, ascii_colon_space, lineTerminator_eq]
  refine ⟨_, ParseRequest_of_index hi, ?_⟩
  rw [lineTerminator_eq]
  rcases hs : strings.Split (strings.TrimRight (data.take i) headerTerminator) [13, 10]
    with _ | ⟨l0, rest⟩
  · exact absurd hs (Split_ne_nil _ _)
  · rw [hs] at hlines
    have h0 := (hlines l0 (by simp)).2
    simp only [decodeLines]
    obtain ⟨t1, t2, t3⟩ := parseFirstLine_tokens l0 h0
    refine ⟨t1, t2, t3, ?_⟩
    intro kv hkv
    obtain ⟨l, hl, he⟩ := mem_headersOf rest kv hkv
    rw [he]
    exact parseHeader_tokens l (hlines l (List.mem_cons_of_mem _ hl)).2

theorem C20_no_delimiter_in_tokens_witness :
    strings.Contains (ascii "GET /a b HTTP/1.1\r\nA: b: c\r\nK: v\r\n\n\r\n\r\nbody")
      headerTerminator = true ∧
    ∃ r, ParseRequest (ascii "GET /a b HTTP/1.1\r\nA: b: c\r\nK: v\r\n\n\r\n\r\nbody") = some r ∧
      (strings.Contains r.Method (ascii " ") = false ∧
        strings.Contains r.Method lineTerminator = false) ∧
      (strings.Contains r.Path (ascii " ") = false ∧
        strings.Contains r.Path lineTerminator = false) ∧
      (strings.Contains r.Version (ascii " ") = false ∧
        strings.Contains r.Version lineTerminator = false) ∧
      ∀ kv ∈ r.Headers,
        (strings.Contains kv.1 (ascii ": ") = false ∧
          strings.Contains kv.1 lineTerminator = false) ∧
        (strings.Contains kv.2 (ascii ": ") = false ∧
          strings.Contains kv.2 lineTerminator = false) :=
  ⟨by decide,
    C20_no_delimiter_in_tokens
      (ascii "GET /a b HTTP/1.1\r\nA: b: c\r\nK: v\r\n\n\r\n\r\nbody") (by decide)⟩

/-! ## C18: the file that a path addresses -/

/-- The base name of a path that ends in a segment `n` behind a separator is
`n`. -/
theorem Base_last_segment (pre n : Str) (hn : n ≠ []) (hseg : (47 : Byte) ∉ n) :
    filepath.Base (pre ++ [47] ++ n) = n := by
  have hne : pre ++ [47] ++ n ≠ [] := by simp
  have hdrop : (pre ++ [47] ++ n).rdropWhile (fun b => b == Separator) = pre ++ [47] ++ n := by
    rw [List.rdropWhile_eq_self_iff]
    intro hl
    rw [List.getLast_append_of_ne_nil hn]
    intro hc
    apply hseg
    have : n.getLast hn = 47 := by simpa [Separator] using hc
    rw [← this]
    exact List.getLast_mem hn
  have htake : (pre ++ [47] ++ n).rtakeWhile (fun b => b != Separator) = n := by
    have hall : ∀ a ∈ n.reverse, (fun b : Byte => b != Separator) a = true := by
      intro a ha
      have ha2 : a ∈ n := List.mem_reverse.mp ha
      have : a ≠ 47 := fun h => hseg (h ▸ ha2)
      simpa [Separator] using this
    unfold List.rtakeWhile
    rw [List.reverse_append, List.takeWhile_append_of_pos hall]
    simp [Separator]
  unfold filepath.Base
  rw [if_neg hne]
  simp only [hdrop, htake, if_neg hn]

/-- The base name of a path that starts with `/files/` is not empty and
holds no separator. -/
theorem Base_no_separator (path : Str)
    (h : strings.HasPrefix path (ascii "/files/") = true) :
    filepath.Base path ≠ [] ∧ (47 : Byte) ∉ filepath.Base path := by
  obtain ⟨t, ht⟩ := List.isPrefixOf_iff_prefix.mp h
  have hne : path ≠ [] := by
    rw [← ht, ascii_files]; simp
  have hf : (102 : Byte) ∈ path := by
    rw [← ht, ascii_files]; simp
  have hd : path.rdropWhile (fun b => b == Separator) ≠ [] := by
    intro h0
    have := List.rdropWhile_eq_nil_iff.mp h0 102 hf
    exact absurd this (by decide)
  have hlast := List.rdropWhile_last_not (fun b => b == Separator) path hd
  have ht2 : (path.rdropWhile (fun b => b == Separator)).rtakeWhile
      (fun b => b != Separator) ≠ [] := by
    intro h0
    have := List.rtakeWhile_eq_nil_iff.mp h0 hd
    apply this
    simpa using hlast
  unfold filepath.Base
  rw [if_neg hne]
  simp only [if_neg ht2]
  refine ⟨ht2, ?_⟩
  intro hmem
  have := List.mem_rtakeWhile_imp hmem
  simp [Separator] at this

/-- C18, the part that holds: for a path that starts with `/files/`, the file
name joined onto the configured directory is the base name of the path, it is
not empty and holds no separator, and a path with further directories before
its last segment addresses the same path name as the path with the last
segment alone. -/
theorem files_flattened (directoryArg pre n path : Str)
    (hpath : strings.HasPrefix path (ascii "/files/") = true)
    (hn : n ≠ []) (hseg : (47 : Byte) ∉ n) :
    addressed directoryArg path = filepath.Join directoryArg (filepath.Base path) ∧
    filepath.Base path ≠ [] ∧ (47 : Byte) ∉ filepath.Base path ∧
    addressed directoryArg (ascii "/files/" ++ pre ++ [47] ++ n) =
      addressed directoryArg (ascii "/files/" ++ n) := by
  refine ⟨rfl, (Base_no_separator path hpath).1, (Base_no_separator path hpath).2, ?_⟩
  unfold addressed
  rw [Base_last_segment _ n hn hseg, Base_files n hn hseg]

/-- C18 (evaluation at the failing input): with the configured directory
`/tmp/data`, the path `/files/..` starts with `/files/` and has the base name
`..`, which holds no separator; joined onto the directory it gives `/tmp`, the
parent of the configured directory and not a path name inside it.  The GET
request is answered 200 with an empty body (the directory exists and cannot
be read as a file), the POST request 201.  In the same way `/files/.`
addresses the configured directory itself, and with the empty default
directory `/files/..` addresses `..`.  The nested path `/files/a/b.txt`
addresses the same file as `/files/b.txt`, inside the directory. -/
theorem C18_dot_dot_leaves_directory :
    strings.HasPrefix (ascii "/files/..") (ascii "/files/") = true ∧
    filepath.Base (ascii "/files/..") = ascii ".." ∧
    addressed (ascii "/tmp/data") (ascii "/files/..") = ascii "/tmp" ∧
    strings.HasPrefix (addressed (ascii "/tmp/data") (ascii "/files/..")) (ascii "/tmp/data")
      = false ∧
    CreateResponse (ascii "/tmp/data") dataDirFS (requestOf (ascii "GET") (ascii "/files/..") [])
      = (okWithContent (ascii "HTTP/1.1") (ascii "application/octet-stream") [], dataDirFS) ∧
    CreateResponse (ascii "/tmp/data") dataDirFS
        (requestOf (ascii "POST") (ascii "/files/..") (ascii "x"))
      = (bare (ascii "HTTP/1.1") 201 (ascii "Created"), dataDirFS) ∧
    addressed (ascii "/tmp/data") (ascii "/files/.") = ascii "/tmp/data" ∧
    addressed [] (ascii "/files/..") = ascii ".." ∧
    addressed (ascii "/tmp/data") (ascii "/files/a/b.txt") = ascii "/tmp/data/b.txt" ∧
    addressed (ascii "/tmp/data") (ascii "/files/b.txt") = ascii "/tmp/data/b.txt" := by
  decide
theorem Split_append_last_one (x : Byte) (a b : Str) (hb : x ∉ b) :
    strings.Split (a ++ [x] ++ b) [x] = strings.Split a [x] ++ [b] := by
  generalize hn : a.length = n
  induction n using Nat.strong_induction_on generalizing a with
  | _ n ih =>
    subst hn
    cases hx : indexOf [x] a with
    | none =>
      have hxa : x ∉ a := (indexOf_one_none_iff x a).mp hx
      rw [Split_append_one x a b hxa, Split_of_none _ _ hx,
        Split_of_none _ _ ((indexOf_one_none_iff x b).mpr hb)]
      rfl
    | some m =>
      have hsplit := indexOf_split hx
      have hb2 := indexOf_bound hx
      have hfree : x ∉ a.take m :=
        (indexOf_one_none_iff x _).mp (indexOf_take_none (by simp) hx)
      have hrec := ih (a.drop (m + [x].length)).length (by simp at hb2 ⊢; omega) _ rfl
      have e1 : a ++ [x] ++ b =
          a.take m ++ [x] ++ (a.drop (m + [x].length) ++ [x] ++ b) := by
        conv_lhs => rw [hsplit]
        simp
      have e2 : strings.Split a [x] =
          a.take m :: strings.Split (a.drop (m + [x].length)) [x] := by
        conv_lhs => rw [hsplit]
        exact Split_append_one x _ _ hfree
      rw [e1, Split_append_one x _ _ hfree, hrec, e2]
      rfl

theorem intercalate_cons_cons (sep x y : Str) (zs : List Str) :
    sep.intercalate (x :: y :: zs) = x ++ sep ++ sep.intercalate (y :: zs) := by
  simp [List.intercalate, List.intersperse]

theorem intercalate_append_singleton (sep n : Str) (xs : List Str) (hxs : xs ≠ []) :
    sep.intercalate (xs ++ [n]) = sep.intercalate xs ++ sep ++ n := by
  induction xs with
  | nil => exact absurd rfl hxs
  | cons x t ih =>
    cases t with
    | nil => simp [List.intercalate, List.intersperse]
    | cons y zs =>
      have := ih (by simp)
      rw [List.cons_append, List.cons_append, intercalate_cons_cons, ← List.cons_append, this,
        intercalate_cons_cons]
      simp

theorem cleanStep_inv (rooted : Bool) (stack : List Str) (elem : Str)
    (hs : ∀ e ∈ stack, cleanElement e) (he : (47 : Byte) ∉ elem) :
    ∀ e ∈ filepath.cleanStep rooted stack elem, cleanElement e := by
  unfold filepath.cleanStep
  by_cases h1 : elem = [] ∨ elem = ascii "."
  · rw [if_pos h1]; exact hs
  · rw [if_neg h1]
    have hel : cleanElement elem := ⟨fun h => h1 (Or.inl h), fun h => h1 (Or.inr h), he⟩
    by_cases h2 : elem = ascii ".."
    · rw [if_pos h2]
      cases stack with
      | nil =>
        by_cases hr : rooted = true
        · simp [hr]
        · simp only [hr, Bool.false_eq_true, if_false]
          intro e hmem
          rw [List.mem_singleton.mp hmem]; exact hel
      | cons top below =>
        simp only
        by_cases h3 : top = ascii ".."
        · rw [if_pos h3]
          intro e hmem
          rcases List.mem_cons.mp hmem with h | h
          · rw [h]; exact hel
          · exact hs e h
        · rw [if_neg h3]
          intro e hmem
          exact hs e (List.mem_cons_of_mem _ hmem)
    · rw [if_neg h2]
      intro e hmem
      rcases List.mem_cons.mp hmem with h | h
      · rw [h]; exact hel
      · exact hs e h

theorem cleanStack_inv (rooted : Bool) (elems : List Str) (stack : List Str)
    (hs : ∀ e ∈ stack, cleanElement e) (he : ∀ e ∈ elems, (47 : Byte) ∉ e) :
    ∀ e ∈ elems.foldl (filepath.cleanStep rooted) stack, cleanElement e := by
  induction elems generalizing stack with
  | nil => exact hs
  | cons x t ih =>
    rw [List.foldl_cons]
    exact ih _ (cleanStep_inv rooted stack x hs (he x (by simp)))
      (fun e hmem => he e (List.mem_cons_of_mem _ hmem))

theorem intercalate_clean (xs : List Str) (hxs : xs ≠ []) (hall : ∀ e ∈ xs, cleanElement e) :
    [Separator].intercalate xs ≠ [] ∧ [Separator].intercalate xs ≠ ascii "." ∧
    [Separator].intercalate xs ≠ [Separator] ∧
    ([Separator].intercalate xs).head? ≠ some Separator := by
  cases xs with
  | nil => exact absurd rfl hxs
  | cons x t =>
    obtain ⟨h1, h2, h3⟩ := hall x (by simp)
    cases x with
    | nil => exact absurd rfl h1
    | cons c cs =>
      have hc : c ≠ 47 := fun h => h3 (by simp [h])
      cases t with
      | nil =>
        have e : [Separator].intercalate [c :: cs] = c :: cs := by
          simp [List.intercalate, List.intersperse]
        rw [e]
        refine ⟨by simp, h2, ?_, by simpa [Separator] using hc⟩
        intro h
        have : c = 47 := by simpa [Separator] using (List.cons.inj h).1
        exact hc this
      | cons y zs =>
        rw [intercalate_cons_cons]
        refine ⟨by simp, ?_, ?_, by simpa [Separator] using hc⟩
        · intro h
          have hlen := congrArg List.length h
          simp [ascii] at hlen
        · intro h
          have hlen := congrArg List.length h
          simp at hlen

theorem intercalate_singleton (sep n : Str) : sep.intercalate [n] = n := by
  simp [List.intercalate, List.intersperse]

/-- `filepath.Clean` of a single segment other than `.` and `..`. -/
theorem Clean_segment (name : Str) (hn : name ≠ []) (hseg : Separator ∉ name)
    (hdot : name ≠ ascii ".") (hdotdot : name ≠ ascii "..") :
    filepath.Clean name = name := by
  have hfree : indexOf [Separator] name = none := (indexOf_one_none_iff _ name).mpr hseg
  have hstep : filepath.cleanStep false [] name = [name] := by
    unfold filepath.cleanStep
    rw [if_neg (by rintro (h | h); exact hn h; exact hdot h), if_neg hdotdot]
  have hr : (name.head? == some Separator) = false := by
    cases name with
    | nil => exact absurd rfl hn
    | cons c cs =>
      have : c ≠ Separator := fun h => hseg (by simp [h])
      simpa using this
  unfold filepath.Clean
  rw [if_neg hn]
  simp only [hr, Split_of_none _ _ hfree, List.foldl_cons, List.foldl_nil, hstep,
    Bool.false_eq_true, if_false, List.reverse_cons, List.reverse_nil, List.nil_append,
    intercalate_singleton, hn]

/-- `filepath.Clean` of a non-empty path, from the stack of its elements. -/
theorem Clean_of_stack (p : Str) (hp : p ≠ []) (S : List Str)
    (hS : (strings.Split p [Separator]).foldl
      (filepath.cleanStep (p.head? == some Separator)) [] = S) :
    filepath.Clean p =
      if (if (p.head? == some Separator) = true then [Separator] else [])
          ++ [Separator].intercalate S.reverse = [] then ascii "."
      else (if (p.head? == some Separator) = true then [Separator] else [])
          ++ [Separator].intercalate S.reverse := by
  unfold filepath.Clean
  rw [if_neg hp]
  simp only [hS]

/-- The path name that `filepath.Join` gives for a directory and a file name
that is a single segment other than `.` and `..`: the entry with that name in
the directory with the clean path name of `dir` (the current directory when
`dir` is empty). -/
theorem Join_child (dir name : Str) (hn : name ≠ []) (hseg : (47 : Byte) ∉ name)
    (hdot : name ≠ ascii ".") (hdotdot : name ≠ ascii "..") :
    filepath.Join dir name = childOf (filepath.Clean dir) name := by
  have hseg2 : Separator ∉ name := hseg
  have hstep : ∀ rooted stack, filepath.cleanStep rooted stack name = name :: stack := by
    intro rooted stack
    unfold filepath.cleanStep
    rw [if_neg (by rintro (h | h); exact hn h; exact hdot h), if_neg hdotdot]
  have hsd : ([Separator] : Str) ≠ ascii "." := by decide
  unfold filepath.Join
  by_cases hd : dir = []
  · subst hd
    have hempty : filepath.Clean [] = ascii "." := by decide
    rw [if_neg (by simp), if_pos hn, Clean_segment name hn hseg2 hdot hdotdot, hempty, childOf,
      if_pos rfl]
  · rw [if_pos hd]
    have hrooted : (dir ++ [Separator] ++ name).head? = dir.head? := by
      cases dir with
      | nil => exact absurd rfl hd
      | cons c cs => rfl
    have hinv := cleanStack_inv (dir.head? == some Separator) (strings.Split dir [Separator]) []
      (by simp) (fun e he => (indexOf_one_none_iff 47 e).mp
        (Split_pieces [Separator] (by simp) dir e he).2)
    have hpne : dir ++ [Separator] ++ name ≠ [] := by simp
    generalize hS : (strings.Split dir [Separator]).foldl
      (filepath.cleanStep (dir.head? == some Separator)) [] = S at hinv
    have hS2 : (strings.Split (dir ++ [Separator] ++ name) [Separator]).foldl
        (filepath.cleanStep ((dir ++ [Separator] ++ name).head? == some Separator)) [] =
        name :: S := by
      rw [hrooted, Split_append_last_one Separator dir name hseg2, List.foldl_append, hS,
        List.foldl_cons, List.foldl_nil, hstep]
    rw [Clean_of_stack _ hpne _ hS2, Clean_of_stack _ hd _ hS, hrooted, List.reverse_cons]
    have hSrev : ∀ e ∈ S.reverse, cleanElement e := fun e he => hinv e (List.mem_reverse.mp he)
    by_cases hSnil : S = []
    · subst hSnil
      have e1 : [Separator].intercalate ([] : List Str) = [] := rfl
      simp only [List.reverse_nil, List.nil_append, intercalate_singleton, e1, List.append_nil]
      by_cases hr : (dir.head? == some Separator) = true
      · simp only [hr, if_true]
        rw [if_neg (by simp), if_neg (by simp), childOf, if_neg hsd, if_pos rfl]
        rfl
      · simp only [hr, Bool.false_eq_true, if_false, List.nil_append]
        simp only [if_true, childOf, if_neg hn]
    · have hrevne : S.reverse ≠ [] := by simpa using hSnil
      obtain ⟨i1, i2, i3, i4⟩ := intercalate_clean S.reverse hrevne hSrev
      rw [intercalate_append_singleton _ _ _ hrevne]
      by_cases hr : (dir.head? == some Separator) = true
      · simp only [hr, if_true]
        have hout : [Separator] ++ [Separator].intercalate S.reverse ≠ [] := by simp
        have hne_dot : [Separator] ++ [Separator].intercalate S.reverse ≠ ascii "." := by
          intro h
          have := (List.cons.inj h).1
          exact absurd this (by decide)
        have hne_root : [Separator] ++ [Separator].intercalate S.reverse ≠ [Separator] := by
          intro h
          have hlen := congrArg List.length h
          simp at hlen
          exact i1 hlen
        rw [if_neg (by simp), if_neg hout, childOf, if_neg hne_dot, if_neg hne_root]
        simp
      · simp only [hr, Bool.false_eq_true, if_false, List.nil_append]
        rw [if_neg (by simp), if_neg i1, childOf, if_neg i2, if_neg i3]

/-- C18 outside the defect: for a path that starts with `/files/` and whose
base name is neither `.` nor `..`, the path name handed to the operating
system is the entry with the base name in the configured directory. -/
theorem files_inside_directory (directoryArg path : Str)
    (hpath : strings.HasPrefix path (ascii "/files/") = true)
    (hdot : filepath.Base path ≠ ascii ".") (hdotdot : filepath.Base path ≠ ascii "..") :
    addressed directoryArg path =
      childOf (filepath.Clean directoryArg) (filepath.Base path) := by
  obtain ⟨h1, h2⟩ := Base_no_separator path hpath
  exact Join_child directoryArg _ h1 h2 hdot hdotdot

theorem files_inside_directory_example :
    addressed (ascii "/tmp//data/") (ascii "/files/a/b.txt") =
      childOf (filepath.Clean (ascii "/tmp//data/")) (filepath.Base (ascii "/files/a/b.txt")) ∧
    childOf (filepath.Clean (ascii "/tmp//data/")) (filepath.Base (ascii "/files/a/b.txt")) =
      ascii "/tmp/data/b.txt" ∧
    addressed [] (ascii "/files/b.txt") = ascii "b.txt" :=
  ⟨files_inside_directory (ascii "/tmp//data/") (ascii "/files/a/b.txt")
    (by decide) (by decide) (by decide), by decide, by decide⟩

end HttpServer
